import Mathlib

/-!
Verification of the mtb-timetracking core: a shallow embedding of the
race-timing data model (Timer, FinishEntry, Category, Session), the entry
reconciliation workflow of the main window (submit / edit / delete / undo /
DNF marking), the JSON session persistence layer, and the Excel export
ranking logic.

Modelling conventions:
* `datetime` values are integers (microseconds since an arbitrary epoch);
  `timedelta` values are integers (microseconds).  Each call of
  `datetime.now()` in the source becomes an explicit parameter.
* Python dicts that are used as ordered maps become association lists.
* Fallible Python code (parsers that may raise) returns `Option`.
* `str.strip()` is modelled by `pyStrip` (whitespace trimming on both ends).
-/

namespace MTBTiming

/-! ## List helpers (in-place mutation of one element of a Python list) -/

/-- Replace the element at index `i` by `f` applied to it (identity when out
of range).  Models in-place mutation of one element of a Python list. -/
def modifyIdx : List α → Nat → (α → α) → List α
  | [], _, _ => []
  | x :: xs, 0, f => f x :: xs
  | x :: xs, n + 1, f => x :: modifyIdx xs n f

/-! ## Decimal digit rendering and parsing

These model Python's `"%d"`-style integer formatting and `int()` parsing.
(`int()` additionally tolerates surrounding whitespace and underscore digit
separators, which never occur in the strings this program produces.) -/

def digitChar (d : Nat) : Char := Char.ofNat (48 + d)

def charDigit (c : Char) : Option Nat :=
  if 48 ≤ c.toNat ∧ c.toNat ≤ 57 then some (c.toNat - 48) else none

/-- Accumulating decimal parser over a digit list. -/
def digitsToNatAux : List Char → Nat → Option Nat
  | [], acc => some acc
  | c :: cs, acc =>
    match charDigit c with
    | some d => digitsToNatAux cs (acc * 10 + d)
    | none => none

/-- Parse a non-empty list of decimal digits (value of `int()` on a digit
string; leading zeros allowed). -/
def digitsToNat : List Char → Option Nat
  | [] => none
  | l => digitsToNatAux l 0

/-- Decimal digits of `n`, most significant first; `fuel` bounds the
recursion depth (any `fuel` with `n < 10 ^ fuel` renders fully). -/
def natCharsAux : Nat → Nat → List Char
  | 0, _ => []
  | fuel + 1, n =>
    if n < 10 then [digitChar n]
    else natCharsAux fuel (n / 10) ++ [digitChar (n % 10)]

/-- Decimal rendering of a natural number (Python `"%d" % n` for `n ≥ 0`). -/
def natChars (n : Nat) : List Char := natCharsAux (n + 1) n

def natStr (n : Nat) : String := String.mk (natChars n)

/-- Python `"%02d" % n` for `n ≥ 0`. -/
def pad2 (n : Nat) : String :=
  if n < 10 then String.mk ('0' :: natChars n) else natStr n

/-- Python `"%06d" % n` for `n ≥ 0`. -/
def pad6 (n : Nat) : String :=
  String.mk (List.replicate (6 - (natChars n).length) '0' ++ natChars n)

/-- Python `"%d" % i` (signed). -/
def intStr (i : Int) : String :=
  if i < 0 then String.mk ('-' :: natChars i.natAbs) else natStr i.natAbs

/-- Python `"%02d" % i` (signed; a sign character counts toward the width,
so no zero padding ever applies to a negative two-width value). -/
def pad2i (i : Int) : String :=
  if i < 0 then String.mk ('-' :: natChars i.natAbs) else pad2 i.natAbs

/-- Split a character list at every occurrence of `sep` (Python
`str.split(sep)` for a one-character separator: empty pieces are kept). -/
def splitOnChar (sep : Char) : List Char → List (List Char)
  | [] => [[]]
  | x :: xs =>
    let r := splitOnChar sep xs
    if x = sep then [] :: r
    else
      match r with
      | [] => [[x]]
      | h :: t => (x :: h) :: t

/-- Python `s.split(sep)` for a one-character separator. -/
def pySplit (sep : Char) (s : String) : List String :=
  (splitOnChar sep s.data).map String.mk

/-- Python `int(s)`: optional sign followed by decimal digits. -/
def pyInt (s : String) : Option Int :=
  match s.data with
  | [] => none
  | c :: rest =>
    if c = '-' then (digitsToNat rest).map (fun n => -(n : Int))
    else if c = '+' then (digitsToNat rest).map (fun n => (n : Int))
    else (digitsToNat (c :: rest)).map (fun n => (n : Int))

/-- ASCII whitespace recognizer for `str.strip()` (Python also strips a few
Unicode spaces, which never occur in this program's inputs of interest). -/
def isSpaceChar (c : Char) : Bool :=
  c = ' ' || c = '\t' || c = '\n' || c = '\r' || c = '\x0b' || c = '\x0c'

/-- Python `s.strip()`: drop whitespace from both ends. -/
def pyStrip (s : String) : String :=
  String.mk (((s.data.dropWhile isSpaceChar).reverse.dropWhile isSpaceChar).reverse)

/-! ## Timer (src/src/core/timer.py)

Timestamps and durations are integers of microseconds. -/

inductive TimerState where
  | NOT_STARTED
  | RUNNING
  | STOPPED
  | PAUSED
deriving DecidableEq, Repr

structure Timer where
  state : TimerState
  start_time : Option Int
  stop_time : Option Int
  pause_time : Option Int
  accumulated_pause_duration : Int
deriving DecidableEq, Repr

/-- `Timer.__init__`. -/
def Timer.init : Timer :=
  { state := TimerState.NOT_STARTED
    start_time := none
    stop_time := none
    pause_time := none
    accumulated_pause_duration := 0 }

/-- `Timer.is_running`. -/
def Timer.is_running (t : Timer) : Bool := t.state = TimerState.RUNNING

/-- `Timer.get_elapsed_time(at_time)`; `now` is the value `datetime.now()`
would return if the code reaches that call. -/
def Timer.get_elapsed_time (t : Timer) (at_time : Option Int) (now : Int) : Int :=
  if t.state = TimerState.NOT_STARTED then 0
  else
    match t.start_time with
    | none => 0
    | some s =>
      let end_time :=
        match at_time with
        | some a => a
        | none =>
          match t.state, t.stop_time with
          | TimerState.STOPPED, some st => st
          | _, _ =>
            match t.state, t.pause_time with
            | TimerState.PAUSED, some pt => pt
            | _, _ => now
      let elapsed := end_time - s - t.accumulated_pause_duration
      if elapsed > 0 then elapsed else 0

/-! ## Participants and finish entries (src/src/core/entry.py)

A participant record is the fixed-shape dict built by
`Category._load_from_dataframe` (all six keys always present). -/

structure Participant where
  id : String
  first_name : String
  last_name : String
  team : String
  birth_year : String
  gender : String
deriving DecidableEq, Repr

structure FinishEntry where
  entry_id : String
  participant_id : String
  category_name : String
  finish_time : Int
  elapsed_time : Int
  first_name : Option String
  last_name : Option String
  team : Option String
  birth_year : Option String
  gender : Option String
  is_valid_id : Bool
  is_dnf : Bool
  notes : String
deriving DecidableEq, Repr

/-- `FinishEntry.format_elapsed_time`: `HH:MM:SS` from
`int(self.elapsed_time.total_seconds())` (truncation toward zero) and
Python floor division / modulus. -/
def FinishEntry.format_elapsed_time (e : FinishEntry) : String :=
  let total_seconds : Int := Int.tdiv e.elapsed_time 1000000
  let hours : Int := Int.fdiv total_seconds 3600
  let minutes : Int := Int.fdiv (total_seconds % 3600) 60
  let seconds : Int := total_seconds % 60
  pad2i hours ++ ":" ++ pad2i minutes ++ ":" ++ pad2i seconds

/-- `FinishEntry.format_finish_time`: `strftime("%H:%M:%S")`, the wall-clock
time of day of the timestamp. -/
def FinishEntry.format_finish_time (e : FinishEntry) : String :=
  let s : Nat := (Int.emod (Int.fdiv e.finish_time 1000000) 86400).toNat
  pad2 (s / 3600) ++ ":" ++ pad2 (s % 3600 / 60) ++ ":" ++ pad2 (s % 60)

/-! ## Category (src/src/core/category.py)

The participant dict is an insertion-ordered association list.  CSV/dataframe
loading is out of scope (thin parser); a Category is taken with its
participant table already built. -/

structure Category where
  name : String
  csv_path : Option String
  id_column : String
  timer : Timer
  entries : List FinishEntry
  participants : List (String × Participant)
deriving DecidableEq, Repr

/-- `Category.get_participant_data`: `self.participants.get(str(id).strip())`. -/
def Category.get_participant_data (c : Category) (pid : String) : Option Participant :=
  c.participants.lookup (pyStrip pid)

/-- `Category.has_participant`: `str(id).strip() in self.participants`. -/
def Category.has_participant (c : Category) (pid : String) : Bool :=
  (c.participants.lookup (pyStrip pid)).isSome

/-- `Category.add_entry`. -/
def Category.add_entry (c : Category) (e : FinishEntry) : Category :=
  { c with entries := c.entries ++ [e] }

/-- `Category.get_total_participants`. -/
def Category.get_total_participants (c : Category) : Nat := c.participants.length

/-- `Category.get_finished_count`: `len([e for e in self.entries if not e.is_dnf])`. -/
def Category.get_finished_count (c : Category) : Nat :=
  (c.entries.filter (fun e => !e.is_dnf)).length

/-- `Category.get_sorted_entries`: `sorted(self.entries, key=lambda e:
e.elapsed_time)`.  Python's sort is stable; a stable ascending sort under a
total preorder has a unique result, so the stable `List.insertionSort`
computes the same list. -/
def Category.get_sorted_entries (c : Category) : List FinishEntry :=
  c.entries.insertionSort (fun a b => a.elapsed_time ≤ b.elapsed_time)

/-! ## Session (src/src/core/session.py) -/

structure Session where
  categories : List Category
  session_name : String
  created_at : Int
  last_saved : Option Int
deriving DecidableEq, Repr

/-- `Session.add_category`. -/
def Session.add_category (s : Session) (c : Category) : Session :=
  { s with categories := s.categories ++ [c] }

/-- `Session.get_category`: first category with the given name. -/
def Session.get_category_idx (s : Session) (category_name : String) : Option Nat :=
  s.categories.findIdx? (fun c => c.name == category_name)

/-- `find_participant_category` (src/src/utils/validation.py), returning the
index of the first category whose roster contains the trimmed id. -/
def find_participant_category_idx (participant_id : String)
    (categories : List Category) : Option Nat :=
  categories.findIdx? (fun c => c.has_participant (pyStrip participant_id))

/-- `Session.get_all_entries`: all entries of all categories sorted by
`finish_time` descending (stable). -/
def Session.get_all_entries (s : Session) : List FinishEntry :=
  ((s.categories.map Category.entries).flatten).insertionSort
    (fun a b => b.finish_time ≤ a.finish_time)

/-! ## Main-window reconciliation workflow (src/src/ui/main_window.py)

The mutable UI state the claims concern: the session plus the bounded undo
stack `last_entries`.  The Python stack holds `(entry, category)` object
references; undo uses only `entry.entry_id` and the category's identity,
so a stack element is modelled as `(entry_id, index of the category within
session.categories)` — valid because none of the modelled operations
removes or reorders categories. -/

structure AppState where
  session : Session
  last_entries : List (String × Nat)
deriving DecidableEq, Repr

/-- Apply `f` to the category at index `i` of the session. -/
def modifyCat (s : Session) (i : Nat) (f : Category → Category) : Session :=
  { s with categories := modifyIdx s.categories i f }

/-- `MainWindow.process_entry` (lines 201-268).  `raw` is the text of the
input field, `new_entry_id` the fresh `uuid.uuid4()` string, `tFinish` and
`tElapsed` the values of the two `datetime.now()`-anchored reads
(`finish_time=datetime.now()` and `category.timer.get_elapsed_time()`). -/
def process_entry (st : AppState) (raw new_entry_id : String)
    (tFinish tElapsed : Int) : AppState :=
  let pid := pyStrip raw
  if pid = "" then st
  else
    let cats := st.session.categories
    let found := find_participant_category_idx pid cats
    let target : Option Nat :=
      match found with
      | some i => some i
      | none =>
        match cats.findIdx? (fun c => c.timer.is_running) with
        | some i => some i
        | none => if cats.isEmpty then none else some 0
    match target with
    | none => st
    | some tgt =>
      match cats.get? tgt with
      | none => st
      | some c =>
        let pdata : Option Participant :=
          if found.isSome then c.get_participant_data pid else none
        let entry : FinishEntry :=
          { entry_id := new_entry_id
            participant_id := pid
            category_name := c.name
            finish_time := tFinish
            elapsed_time := c.timer.get_elapsed_time none tElapsed
            first_name := pdata.map Participant.first_name
            last_name := pdata.map Participant.last_name
            team := pdata.map Participant.team
            birth_year := pdata.map Participant.birth_year
            gender := pdata.map Participant.gender
            is_valid_id := found.isSome
            is_dnf := false
            notes := "" }
        let session1 := modifyCat st.session tgt (fun cat => cat.add_entry entry)
        let stack := st.last_entries ++ [(new_entry_id, tgt)]
        { session := session1
          last_entries := if stack.length > 10 then stack.tail else stack }

/-- `MainWindow.undo_last_entry` (lines 270-287): pop the most recent
`(entry, category)` pair and remove that entry id from that category's
ledger. -/
def undo_last_entry (st : AppState) : AppState :=
  match st.last_entries.getLast? with
  | none => st
  | some (eid, ci) =>
    { session := modifyCat st.session ci
        (fun c => { c with entries := c.entries.filter (fun e => !(e.entry_id == eid)) })
      last_entries := st.last_entries.dropLast }

/-- Shared re-resolution core of `MainWindow.edit_entry` (lines 495-535) and
`MainWindow.on_recent_entry_item_changed` (lines 387-425): the entry at
position `j` of the category at index `ci` gets `new_id` as participant id,
is re-resolved against every category's roster, and is moved to the owning
category when the resolved category name differs. -/
def Session.applyEditAt (s : Session) (ci j : Nat) (new_id : String) : Session :=
  match (s.categories.get? ci).bind (fun c => c.entries.get? j) with
  | none => s
  | some e =>
    let e1 := { e with participant_id := new_id }
    match s.categories.findIdx? (fun c => c.has_participant new_id) with
    | some fi =>
      match s.categories.get? fi with
      | none => s
      | some fc =>
        match fc.get_participant_data new_id with
        | some p =>
          let e2 := { e1 with
            first_name := some p.first_name
            last_name := some p.last_name
            team := some p.team
            birth_year := some p.birth_year
            gender := some p.gender
            is_valid_id := true }
          if fc.name ≠ e1.category_name then
            let s1 := modifyCat s ci
              (fun c => { c with entries := (c.entries.set j e2).erase e2 })
            let e3 := { e2 with category_name := fc.name }
            modifyCat s1 fi (fun c => c.add_entry e3)
          else
            modifyCat s ci (fun c => { c with entries := c.entries.set j e2 })
        | none =>
          let e2 := { e1 with
            first_name := some ""
            last_name := some ""
            team := some ""
            birth_year := some ""
            gender := some ""
            is_valid_id := false }
          modifyCat s ci (fun c => { c with entries := c.entries.set j e2 })
    | none =>
      let e2 := { e1 with
        first_name := some ""
        last_name := some ""
        team := some ""
        birth_year := some ""
        gender := some ""
        is_valid_id := false }
      modifyCat s ci (fun c => { c with entries := c.entries.set j e2 })

/-- Locate an entry id across all categories: first category (in session
order) holding an entry with this id, and the first such entry in it. -/
def locateEntry (s : Session) (eid : String) : Option (Nat × Nat × FinishEntry) :=
  match s.categories.findIdx? (fun c => c.entries.any (fun e => e.entry_id == eid)) with
  | none => none
  | some ci =>
    match s.categories.get? ci with
    | none => none
    | some c =>
      match c.entries.findIdx? (fun e => e.entry_id == eid) with
      | none => none
      | some j => (c.entries.get? j).map (fun e => (ci, j, e))

/-- `MainWindow.on_recent_entry_item_changed` (lines 359-429): the
recent-entries-table edit path.  `txt` is the edited cell text. -/
def on_recent_entry_item_changed (st : AppState) (entry_id txt : String) : AppState :=
  let new_id := pyStrip txt
  if new_id = "" ∨ entry_id = "" then st
  else
    match locateEntry st.session entry_id with
    | none => st
    | some (ci, j, e) =>
      if new_id = e.participant_id then st
      else { st with session := st.session.applyEditAt ci j new_id }

/-- `MainWindow.edit_entry` (lines 431-538): the dialog edit path (modelled
with the dialog accepted).  Unlike the table path it has no guard against
`new_id` equalling the current participant id. -/
def edit_entry (st : AppState) (entry_id category_name txt : String) : AppState :=
  match st.session.get_category_idx category_name with
  | none => st
  | some ci =>
    match st.session.categories.get? ci with
    | none => st
    | some c =>
      match c.entries.findIdx? (fun e => e.entry_id == entry_id) with
      | none => st
      | some j =>
        let new_id := pyStrip txt
        if new_id = "" then st
        else { st with session := st.session.applyEditAt ci j new_id }

/-- `MainWindow.delete_entry` (lines 540-562); `confirm` is the user's
answer to the confirmation dialog. -/
def delete_entry (st : AppState) (entry_id category_name : String)
    (confirm : Bool) : AppState :=
  match st.session.get_category_idx category_name with
  | none => st
  | some ci =>
    match st.session.categories.get? ci with
    | none => st
    | some c =>
      if c.entries.any (fun e => e.entry_id == entry_id) then
        if confirm then
          let s' := modifyCat st.session ci (fun cat =>
            { cat with entries := cat.entries.filter (fun e => !(e.entry_id == entry_id)) })
          { st with session := s' }
        else st
      else st

/-- `CategoryWidget.show_context_menu` DNF branch
(src/src/ui/category_widget.py lines 213-219): set `is_dnf := true` on the
first entry with the given id, then break. -/
def setDnfFirst : List FinishEntry → String → List FinishEntry
  | [], _ => []
  | e :: es, eid =>
    if e.entry_id == eid then { e with is_dnf := true } :: es
    else e :: setDnfFirst es eid

/-- DNF marking on the category at index `ci` (the widget's own category). -/
def mark_dnf (st : AppState) (ci : Nat) (entry_id : String) : AppState :=
  let s' := modifyCat st.session ci (fun c =>
    { c with entries := setDnfFirst c.entries entry_id })
  { st with session := s' }

/-! ## Duration strings: Python `str(timedelta)` and the load-time parser -/

/-- Python `str(timedelta)`: `H:MM:SS`, with `.ffffff` appended when the
microsecond part is nonzero, and prefixed by `D day(s), ` when the
(floor-)normalized day part is nonzero.  `us` is the total duration in
microseconds.  Python normalizes to `0 ≤ _seconds < 86400`,
`0 ≤ _microseconds < 10^6`, with `_days` carrying the sign; `Int`'s `/` and
`%` (Euclidean) agree with Python's floor divmod for positive divisors. -/
def pyTimedeltaStr (us : Int) : String :=
  let micro : Int := us % 1000000
  let totsec : Int := us / 1000000
  let days : Int := totsec / 86400
  let secs : Int := totsec % 86400
  let hh : Nat := (secs / 3600).toNat
  let mm : Nat := (secs % 3600 / 60).toNat
  let ss : Nat := (secs % 60).toNat
  let base := natStr hh ++ ":" ++ pad2 mm ++ ":" ++ pad2 ss
  let base :=
    if days ≠ 0 then
      intStr days ++ (if days = 1 ∨ days = -1 then " day, " else " days, ") ++ base
    else base
  if micro ≠ 0 then base ++ "." ++ pad6 micro.toNat else base

/-- The duration parser of `FinishEntry.from_dict` (src/src/core/entry.py
lines 45-59) and `Timer.from_dict` (src/src/core/timer.py lines 121-135):
`parts = s.split(':')`, `int(parts[0])`, `int(parts[1])`,
`seconds_parts = parts[2].split('.')`, `int(seconds_parts[0])`, and
`int(seconds_parts[1])` when present; any raised exception is `none`. -/
def pyParseElapsed (s : String) : Option Int :=
  let parts := pySplit ':' s
  match parts.get? 0, parts.get? 1, parts.get? 2 with
  | some p0, some p1, some p2 =>
    match pyInt p0, pyInt p1 with
    | some hours, some minutes =>
      let seconds_parts := pySplit '.' p2
      match seconds_parts.get? 0 with
      | some sp0 =>
        match pyInt sp0 with
        | some seconds =>
          let micro : Option Int :=
            match seconds_parts.get? 1 with
            | some sp1 => pyInt sp1
            | none => some 0
          micro.map (fun m => (hours * 3600 + minutes * 60 + seconds) * 1000000 + m)
        | none => none
      | none => none
    | _, _ => none
  | _, _, _ => none

/-! ## Session persistence (to_dict / from_dict / save / load)

ISO-8601 timestamps round-trip exactly through
`datetime.fromisoformat(d.isoformat())`, so serialized timestamps are kept
as their integer values; duration strings and the timer-state enum string
are modelled in full.  `Category.from_dict` re-reads the CSV file only to
rebuild the `dataframe` attribute and then overwrites `participants` from
the stored data, so the participant table round-trips at the value level
(the re-read can still fail as file I/O, which is outside this model). -/

def TimerState.value : TimerState → String
  | TimerState.NOT_STARTED => "not_started"
  | TimerState.RUNNING => "running"
  | TimerState.STOPPED => "stopped"
  | TimerState.PAUSED => "paused"

/-- `TimerState(value)`: raises (here `none`) on an unknown value. -/
def TimerState.ofValue (s : String) : Option TimerState :=
  if s = "not_started" then some TimerState.NOT_STARTED
  else if s = "running" then some TimerState.RUNNING
  else if s = "stopped" then some TimerState.STOPPED
  else if s = "paused" then some TimerState.PAUSED
  else none

structure TimerDict where
  state : String
  start_time : Option Int
  stop_time : Option Int
  pause_time : Option Int
  accumulated_pause_duration : String
deriving DecidableEq, Repr

/-- `Timer.to_dict`. -/
def Timer.to_dict (t : Timer) : TimerDict :=
  { state := t.state.value
    start_time := t.start_time
    stop_time := t.stop_time
    pause_time := t.pause_time
    accumulated_pause_duration := pyTimedeltaStr t.accumulated_pause_duration }

/-- `Timer.from_dict`: the duration is parsed only when the string is
truthy and differs from `'0:00:00'`; otherwise the fresh timer's zero
duration is kept. -/
def Timer.from_dict (d : TimerDict) : Option Timer :=
  match TimerState.ofValue d.state with
  | none => none
  | some st =>
    let base : Timer :=
      { state := st
        start_time := d.start_time
        stop_time := d.stop_time
        pause_time := d.pause_time
        accumulated_pause_duration := 0 }
    if d.accumulated_pause_duration ≠ "" ∧ d.accumulated_pause_duration ≠ "0:00:00" then
      (pyParseElapsed d.accumulated_pause_duration).map
        (fun apd => { base with accumulated_pause_duration := apd })
    else some base

structure FinishEntryDict where
  entry_id : String
  participant_id : String
  category_name : String
  finish_time : Int
  elapsed_time : String
  first_name : Option String
  last_name : Option String
  team : Option String
  birth_year : Option String
  gender : Option String
  is_valid_id : Bool
  is_dnf : Bool
  notes : String
deriving DecidableEq, Repr

/-- `FinishEntry.to_dict`: `elapsed_time` becomes `str(self.elapsed_time)`. -/
def FinishEntry.to_dict (e : FinishEntry) : FinishEntryDict :=
  { entry_id := e.entry_id
    participant_id := e.participant_id
    category_name := e.category_name
    finish_time := e.finish_time
    elapsed_time := pyTimedeltaStr e.elapsed_time
    first_name := e.first_name
    last_name := e.last_name
    team := e.team
    birth_year := e.birth_year
    gender := e.gender
    is_valid_id := e.is_valid_id
    is_dnf := e.is_dnf
    notes := e.notes }

/-- `FinishEntry.from_dict`. -/
def FinishEntry.from_dict (d : FinishEntryDict) : Option FinishEntry :=
  (pyParseElapsed d.elapsed_time).map fun el =>
    { entry_id := d.entry_id
      participant_id := d.participant_id
      category_name := d.category_name
      finish_time := d.finish_time
      elapsed_time := el
      first_name := d.first_name
      last_name := d.last_name
      team := d.team
      birth_year := d.birth_year
      gender := d.gender
      is_valid_id := d.is_valid_id
      is_dnf := d.is_dnf
      notes := d.notes }

structure CategoryDict where
  name : String
  csv_path : Option String
  id_column : String
  timer : TimerDict
  entries : List FinishEntryDict
  participants : List (String × Participant)
deriving DecidableEq, Repr

/-- `Category.to_dict`. -/
def Category.to_dict (c : Category) : CategoryDict :=
  { name := c.name
    csv_path := c.csv_path
    id_column := c.id_column
    timer := c.timer.to_dict
    entries := c.entries.map FinishEntry.to_dict
    participants := c.participants }

/-- `Category.from_dict`. -/
def Category.from_dict (d : CategoryDict) : Option Category := do
  let timer ← Timer.from_dict d.timer
  let entries ← d.entries.mapM FinishEntry.from_dict
  pure { name := d.name
         csv_path := d.csv_path
         id_column := d.id_column
         timer := timer
         entries := entries
         participants := d.participants }

structure SessionDict where
  session_name : String
  created_at : Int
  last_saved : Option Int
  categories : List CategoryDict
deriving DecidableEq, Repr

/-- The serialized object `Session.save` writes: `genName` is the
timestamp-derived default name used when `session_name` is empty, `now`
the save timestamp. -/
def Session.save_data (s : Session) (genName : String) (now : Int) : SessionDict :=
  let name := if s.session_name = "" then genName else s.session_name
  { session_name := name
    created_at := s.created_at
    last_saved := some now
    categories := s.categories.map Category.to_dict }

/-- `Session.load` on an already-parsed JSON object. -/
def Session.load_data (d : SessionDict) : Option Session := do
  let cats ← d.categories.mapM Category.from_dict
  pure { categories := cats
         session_name := d.session_name
         created_at := d.created_at
         last_saved := d.last_saved }

/-! ## Excel export (src/src/utils/excel_export.py) -/

inductive RankLabel where
  | num (n : Nat)
  | dnf
deriving DecidableEq, Repr

structure CatRow where
  rank : RankLabel
  id : String
  first_name : String
  last_name : String
  team : String
  birth_year : String
  gender : String
  finish_str : String
  elapsed_str : String
  notes : String
deriving DecidableEq, Repr

/-- One row of a per-category sheet (`entry.first_name or ''` etc.). -/
def mkCatRow (r : RankLabel) (e : FinishEntry) : CatRow :=
  { rank := r
    id := e.participant_id
    first_name := e.first_name.getD ""
    last_name := e.last_name.getD ""
    team := e.team.getD ""
    birth_year := e.birth_year.getD ""
    gender := e.gender.getD ""
    finish_str := e.format_finish_time
    elapsed_str := e.format_elapsed_time
    notes := e.notes }

/-- `_create_category_dataframe` (lines 41-91): ranked rows come from
`enumerate(sorted_entries, start=1)` over the full elapsed-sorted list
(DNF entries are skipped but still consume rank numbers), then all DNF
rows are appended with rank label DNF. -/
def create_category_rows (c : Category) : List CatRow :=
  let sorted := c.get_sorted_entries
  let ranked := (sorted.enum.filter (fun p => !p.2.is_dnf)).map
    (fun p => mkCatRow (RankLabel.num (p.1 + 1)) p.2)
  let dnfs := (sorted.filter (fun e => e.is_dnf)).map (mkCatRow RankLabel.dnf)
  ranked ++ dnfs

/-- `_parse_time_to_seconds` (lines 173-182): `none` models `float('inf')`
(returned when any part is missing or unparseable). -/
def parse_time_to_seconds (s : String) : Option Int :=
  let parts := pySplit ':' s
  match parts.get? 0, parts.get? 1, parts.get? 2 with
  | some p0, some p1, some p2 =>
    match pyInt p0, pyInt p1, pyInt p2 with
    | some h, some m, some sec => some (h * 3600 + m * 60 + sec)
    | _, _, _ => none
  | _, _, _ => none

/-- Ordering of sort keys, with `none` (the `float('inf')` sentinel)
greatest. -/
def keyLE : Option Int → Option Int → Bool
  | _, none => true
  | none, some _ => false
  | some a, some b => a ≤ b

/-- Rank annotation of the combined sheet (lines 108-113): position within
the category's non-DNF elapsed-sorted view, first structural match. -/
def category_rank (c : Category) (e : FinishEntry) : RankLabel :=
  if e.is_dnf then RankLabel.dnf
  else
    let sorted_nd := c.get_sorted_entries.filter (fun x => !x.is_dnf)
    match sorted_nd.findIdx? (fun x => x == e) with
    | some i => RankLabel.num (i + 1)
    | none => RankLabel.dnf

structure CombRow where
  category : String
  rank : RankLabel
  id : String
  first_name : String
  last_name : String
  team : String
  birth_year : String
  gender : String
  finish_str : String
  elapsed_str : String
  notes : String
deriving DecidableEq, Repr

def mkCombRow (cname : String) (r : RankLabel) (e : FinishEntry) : CombRow :=
  { category := cname
    rank := r
    id := e.participant_id
    first_name := e.first_name.getD ""
    last_name := e.last_name.getD ""
    team := e.team.getD ""
    birth_year := e.birth_year.getD ""
    gender := e.gender.getD ""
    finish_str := e.format_finish_time
    elapsed_str := e.format_elapsed_time
    notes := e.notes }

/-- The sort key `_parse_time_to_seconds` applied to a row's formatted
Elapsed Time column. -/
def combKey (r : CombRow) : Option Int := parse_time_to_seconds r.elapsed_str

/-- `_create_combined_dataframe` (lines 94-138): one row per entry of every
category, then sorted by the parsed Elapsed Time column.  (pandas
`sort_values` does not promise stability with its default kind; a stable
merge sort is one admissible implementation and ties carry no claim.) -/
def create_combined_rows (cats : List Category) : List CombRow :=
  let rows := (cats.map (fun c =>
    c.entries.map (fun e => mkCombRow c.name (category_rank c e) e))).flatten
  rows.insertionSort (fun a b => keyLE (combKey a) (combKey b) = true)

/-! ## Predicates and projections used by the verified properties -/

/-- Durations representable in the `H:MM:SS[.ffffff]` serialization:
nonnegative and under one day. -/
def durOK (us : Int) : Prop := 0 ≤ us ∧ us < 86400000000

/-- All serialized durations of a session are under one day. -/
def Session.durationsOK (s : Session) : Prop :=
  ∀ c ∈ s.categories,
    durOK c.timer.accumulated_pause_duration ∧ ∀ e ∈ c.entries, durOK e.elapsed_time

instance (us : Int) : Decidable (durOK us) := by
  unfold durOK; infer_instance

instance (s : Session) : Decidable s.durationsOK := by
  unfold Session.durationsOK; infer_instance

/-- The fields of an entry that no edit may touch, keyed by the entry's
identity handle. -/
def frameProj (e : FinishEntry) : String × Int × Int × Bool × String :=
  (e.entry_id, e.elapsed_time, e.finish_time, e.is_dnf, e.notes)

/-- The multiset of frame-field tuples of one ledger. -/
def frameMS (l : List FinishEntry) : Multiset (String × Int × Int × Bool × String) :=
  Multiset.ofList (l.map frameProj)

/-- The multiset of frame-field tuples over every ledger of the session. -/
def allEntriesFrame (s : Session) : Multiset (String × Int × Int × Bool × String) :=
  (s.categories.map (fun c => frameMS c.entries)).sum

/-- Ledger consistency: every entry's `category_name` equals the name of the
category whose ledger holds it. -/
def catInvariant (s : Session) : Prop :=
  ∀ c ∈ s.categories, ∀ e ∈ c.entries, e.category_name = c.name

instance (s : Session) : Decidable (catInvariant s) := by
  unfold catInvariant; infer_instance

/-! ## Concrete sample data for witnesses and counterexamples -/

/-- A participant record as `_load_from_dataframe` would build it. -/
def alice : Participant :=
  { id := "7", first_name := "Alice", last_name := "Smith"
    team := "T", birth_year := "1990", gender := "F" }

def bob : Participant :=
  { id := "9", first_name := "Bob", last_name := "Stone"
    team := "U", birth_year := "1991", gender := "M" }

/-- A category with a running timer started at time 0. -/
def catA : Category :=
  { name := "A", csv_path := none, id_column := "A"
    timer := { state := TimerState.RUNNING, start_time := some 0
               stop_time := none, pause_time := none
               accumulated_pause_duration := 0 }
    entries := [], participants := [("7", alice)] }

def catB : Category :=
  { name := "B", csv_path := none, id_column := "A"
    timer := { state := TimerState.RUNNING, start_time := some 0
               stop_time := none, pause_time := none
               accumulated_pause_duration := 0 }
    entries := [], participants := [("9", bob)] }

/-- Two-category session, empty ledgers, empty undo stack. -/
def stAB : AppState :=
  { session := { categories := [catA, catB], session_name := "s"
                 created_at := 0, last_saved := none }
    last_entries := [] }

/-- Submit the unknown id `9`... resolved to category B; then edit the entry
to `7` (owned by category A), which moves it; then undo. -/
def stAfterUndo : AppState :=
  undo_last_entry (edit_entry (process_entry stAB "9" "e1" 95000000 95000000)
    "e1" "B" "7")

/-- An invalid-id entry as `process_entry` creates it (identity fields are
Python `None`). -/
def invalidEntry : FinishEntry :=
  { entry_id := "e1", participant_id := "9", category_name := "A"
    finish_time := 5, elapsed_time := 0
    first_name := none, last_name := none, team := none
    birth_year := none, gender := none
    is_valid_id := false, is_dnf := false, notes := "" }

/-- One rosterless category holding `invalidEntry`. -/
def stInvalid : AppState :=
  { session :=
      { categories :=
          [{ name := "A", csv_path := none, id_column := "A"
             timer := Timer.init, entries := [invalidEntry], participants := [] }]
        session_name := "s", created_at := 0, last_saved := none }
    last_entries := [] }

/-- A DNF entry with a smaller elapsed time than a non-DNF entry. -/
def dnfEntry : FinishEntry :=
  { entry_id := "d1", participant_id := "1", category_name := "C"
    finish_time := 0, elapsed_time := 10000000
    first_name := none, last_name := none, team := none
    birth_year := none, gender := none
    is_valid_id := true, is_dnf := true, notes := "" }

def slowEntry : FinishEntry :=
  { entry_id := "d2", participant_id := "2", category_name := "C"
    finish_time := 0, elapsed_time := 20000000
    first_name := none, last_name := none, team := none
    birth_year := none, gender := none
    is_valid_id := true, is_dnf := false, notes := "" }

/-- Category whose ledger holds a fast DNF entry then a slower finisher. -/
def catC : Category :=
  { name := "C", csv_path := none, id_column := "A"
    timer := Timer.init, entries := [dnfEntry, slowEntry], participants := [] }

/-- A session state whose only entry has a one-day elapsed time. -/
def sessionDay : Session :=
  { categories :=
      [{ name := "A", csv_path := none, id_column := "A"
         timer := Timer.init
         entries := [{ invalidEntry with elapsed_time := 86400000000 }]
         participants := [] }]
    session_name := "s", created_at := 0, last_saved := none }

/-! # Lemmas -/

/-! ## List helper lemmas -/

theorem modifyIdx_length (l : List α) (i : Nat) (f : α → α) :
    (modifyIdx l i f).length = l.length := by
  induction l generalizing i with
  | nil => rfl
  | cons x xs ih =>
    cases i with
    | zero => rfl
    | succ n => simp [modifyIdx, ih]

theorem mem_modifyIdx {l : List α} {i : Nat} {f : α → α} {a : α}
    (h : a ∈ modifyIdx l i f) :
    a ∈ l ∨ ∃ hlt : i < l.length, a = f (l.get ⟨i, hlt⟩) := by
  induction l generalizing i with
  | nil => simp [modifyIdx] at h
  | cons x xs ih =>
    cases i with
    | zero =>
      simp only [modifyIdx, List.mem_cons] at h
      rcases h with h | h
      · exact Or.inr ⟨by simp, by simpa using h⟩
      · exact Or.inl (List.mem_cons_of_mem _ h)
    | succ n =>
      simp only [modifyIdx, List.mem_cons] at h
      rcases h with h | h
      · exact Or.inl (by simp [h])
      · rcases ih h with h' | ⟨hlt, h'⟩
        · exact Or.inl (List.mem_cons_of_mem _ h')
        · exact Or.inr ⟨by simpa using Nat.succ_lt_succ hlt, by simpa using h'⟩

theorem modifyIdx_get? (l : List α) (i k : Nat) (f : α → α) :
    (modifyIdx l i f).get? k =
      if k = i then (l.get? i).map f else l.get? k := by
  induction l generalizing i k with
  | nil => simp [modifyIdx]
  | cons x xs ih =>
    cases i with
    | zero =>
      cases k with
      | zero => simp [modifyIdx]
      | succ m => simp [modifyIdx]
    | succ n =>
      cases k with
      | zero => simp [modifyIdx]
      | succ m =>
        simp only [modifyIdx, List.get?_cons_succ]
        rw [ih]
        by_cases h : m = n <;> simp [h]

theorem modifyIdx_modifyIdx (l : List α) (i : Nat) (f g : α → α) :
    modifyIdx (modifyIdx l i f) i g = modifyIdx l i (fun a => g (f a)) := by
  induction l generalizing i with
  | nil => rfl
  | cons x xs ih =>
    cases i with
    | zero => rfl
    | succ n => simp [modifyIdx, ih]

theorem modifyIdx_eq_self {l : List α} {i : Nat} {f : α → α}
    (h : ∀ a ∈ l, f a = a) : modifyIdx l i f = l := by
  induction l generalizing i with
  | nil => rfl
  | cons x xs ih =>
    cases i with
    | zero => simp [modifyIdx, h x (by simp)]
    | succ n =>
      simp only [modifyIdx, List.cons.injEq, true_and]
      exact ih fun a ha => h a (List.mem_cons_of_mem _ ha)

theorem set_get_eq_self {l : List α} {j : Nat} (h : j < l.length) :
    l.set j (l.get ⟨j, h⟩) = l := by
  induction l generalizing j with
  | nil => simp at h
  | cons x xs ih =>
    cases j with
    | zero => simp
    | succ n =>
      have := ih (j := n) (by simpa using Nat.lt_of_succ_lt_succ h)
      simpa using this

/-! ## Digit rendering and parsing lemmas -/

theorem charDigit_digitChar {d : Nat} (h : d < 10) :
    charDigit (digitChar d) = some d := by
  interval_cases d <;> decide

theorem digitChar_ne_colon {d : Nat} (h : d < 10) : digitChar d ≠ ':' := by
  interval_cases d <;> decide

theorem digitChar_ne_dot {d : Nat} (h : d < 10) : digitChar d ≠ '.' := by
  interval_cases d <;> decide

theorem digitChar_ne_minus {d : Nat} (h : d < 10) : digitChar d ≠ '-' := by
  interval_cases d <;> decide

theorem digitChar_ne_plus {d : Nat} (h : d < 10) : digitChar d ≠ '+' := by
  interval_cases d <;> decide

theorem natCharsAux_digits {fuel n : Nat} {c : Char}
    (h : c ∈ natCharsAux fuel n) : ∃ d, d < 10 ∧ c = digitChar d := by
  induction fuel generalizing n with
  | zero => simp [natCharsAux] at h
  | succ f ih =>
    by_cases h10 : n < 10
    · simp only [natCharsAux, if_pos h10, List.mem_singleton] at h
      exact ⟨n, h10, h⟩
    · simp only [natCharsAux, if_neg h10, List.mem_append, List.mem_singleton] at h
      rcases h with h | h
      · exact ih h
      · exact ⟨n % 10, Nat.mod_lt _ (by omega), h⟩

theorem natCharsAux_ne_nil {fuel n : Nat} (hf : 0 < fuel) :
    natCharsAux fuel n ≠ [] := by
  cases fuel with
  | zero => omega
  | succ f =>
    by_cases h10 : n < 10 <;> simp [natCharsAux, h10]

theorem digitsToNatAux_append (l1 l2 : List Char) (acc : Nat) :
    digitsToNatAux (l1 ++ l2) acc =
      match digitsToNatAux l1 acc with
      | some v => digitsToNatAux l2 v
      | none => none := by
  induction l1 generalizing acc with
  | nil => simp [digitsToNatAux]
  | cons c cs ih =>
    simp only [List.cons_append, digitsToNatAux]
    cases h : charDigit c with
    | some d => simp [ih]
    | none => simp

theorem digitsToNatAux_natCharsAux {fuel n : Nat} (hf : 0 < fuel)
    (hn : n < 10 ^ fuel) (acc : Nat) :
    digitsToNatAux (natCharsAux fuel n) acc =
      some (acc * 10 ^ (natCharsAux fuel n).length + n) := by
  induction fuel generalizing n acc with
  | zero => omega
  | succ f ih =>
    by_cases h10 : n < 10
    · simp only [natCharsAux, if_pos h10, digitsToNatAux, charDigit_digitChar h10,
        List.length_singleton, pow_one]
    · have hd : n / 10 < 10 ^ f := by
        rw [Nat.div_lt_iff_lt_mul (by omega)]
        calc n < 10 ^ (f + 1) := hn
          _ = 10 ^ f * 10 := by ring
      have hf' : 0 < f := by
        rcases Nat.eq_zero_or_pos f with h0 | h0
        · subst h0; simp at hd; omega
        · exact h0
      rw [natCharsAux, if_neg h10, digitsToNatAux_append, ih hf' hd]
      have hm : n % 10 < 10 := Nat.mod_lt _ (by omega)
      simp only [digitsToNatAux, charDigit_digitChar hm, List.length_append,
        List.length_singleton]
      congr 1
      have hdm : 10 * (n / 10) + n % 10 = n := Nat.div_add_mod n 10
      have hq : (acc * 10 ^ (natCharsAux f (n / 10)).length + n / 10) * 10 + n % 10 =
          acc * 10 ^ ((natCharsAux f (n / 10)).length + 1) + (10 * (n / 10) + n % 10) := by
        rw [pow_succ]; ring
      rw [hq, hdm]

theorem digitsToNat_of_ne_nil {l : List Char} (h : l ≠ []) :
    digitsToNat l = digitsToNatAux l 0 := by
  cases l with
  | nil => exact absurd rfl h
  | cons c cs => rfl

theorem natChars_ne_nil (n : Nat) : natChars n ≠ [] :=
  natCharsAux_ne_nil (by omega)

theorem natChars_digits {n : Nat} {c : Char} (h : c ∈ natChars n) :
    ∃ d, d < 10 ∧ c = digitChar d := natCharsAux_digits h

theorem lt_ten_pow_succ (n : Nat) : n < 10 ^ (n + 1) :=
  lt_of_lt_of_le (Nat.lt_pow_self (by omega) n)
    (Nat.pow_le_pow_right (by omega) (by omega))

theorem digitsToNat_natChars (n : Nat) : digitsToNat (natChars n) = some n := by
  rw [digitsToNat_of_ne_nil (natChars_ne_nil n), natChars,
    digitsToNatAux_natCharsAux (by omega) (lt_ten_pow_succ n) 0]
  simp

theorem digitsToNatAux_zeros (k : Nat) (l : List Char) :
    digitsToNatAux (List.replicate k '0' ++ l) 0 = digitsToNatAux l 0 := by
  induction k with
  | zero => simp
  | succ m ih =>
    have h0 : charDigit '0' = some 0 := by decide
    simp only [List.replicate_succ, List.cons_append, digitsToNatAux, h0]
    simpa using ih

theorem pyInt_of_digits {l : List Char} (hne : l ≠ [])
    (hd : ∀ c ∈ l, ∃ d, d < 10 ∧ c = digitChar d) :
    pyInt (String.mk l) = (digitsToNat l).map (fun n => (n : Int)) := by
  cases l with
  | nil => exact absurd rfl hne
  | cons c cs =>
    obtain ⟨d, hd10, hc⟩ := hd c (by simp)
    have h1 : c ≠ '-' := by rw [hc]; exact digitChar_ne_minus hd10
    have h2 : c ≠ '+' := by rw [hc]; exact digitChar_ne_plus hd10
    simp [pyInt, h1, h2]

theorem natStr_data (n : Nat) : (natStr n).data = natChars n := rfl

theorem pyInt_natStr (n : Nat) : pyInt (natStr n) = some (n : Int) := by
  rw [natStr, pyInt_of_digits (natChars_ne_nil n) (fun c hc => natChars_digits hc),
    digitsToNat_natChars]
  rfl

theorem pad2_digits (n : Nat) :
    ∀ c ∈ (pad2 n).data, ∃ d, d < 10 ∧ c = digitChar d := by
  intro c hc
  by_cases h10 : n < 10
  · have hdata : (pad2 n).data = '0' :: natChars n := by
      unfold pad2; rw [if_pos h10]
    rw [hdata] at hc
    rcases List.mem_cons.mp hc with hc | hc
    · exact ⟨0, by omega, by rw [hc]; decide⟩
    · exact natChars_digits hc
  · have hdata : (pad2 n).data = natChars n := by
      unfold pad2; rw [if_neg h10]; rfl
    rw [hdata] at hc
    exact natChars_digits hc

theorem pad2_ne_nil (n : Nat) : (pad2 n).data ≠ [] := by
  by_cases h10 : n < 10
  · simp [pad2, h10]
  · simp only [pad2, if_neg h10, natStr_data]
    exact natChars_ne_nil n

theorem pyInt_pad2 (n : Nat) : pyInt (pad2 n) = some (n : Int) := by
  by_cases h10 : n < 10
  · have h0 : charDigit '0' = some 0 := by decide
    have hmk : pad2 n = String.mk ('0' :: natChars n) := by
      unfold pad2; rw [if_pos h10]
    have hdig : ∀ c ∈ '0' :: natChars n, ∃ d, d < 10 ∧ c = digitChar d := by
      intro c hc
      rcases List.mem_cons.mp hc with hc | hc
      · exact ⟨0, by omega, by rw [hc]; decide⟩
      · exact natChars_digits hc
    rw [hmk, pyInt_of_digits (by simp) hdig]
    rw [digitsToNat_of_ne_nil (by simp)]
    simp only [digitsToNatAux, h0]
    have hrec : digitsToNatAux (natChars n) (0 * 10 + 0) = some n := by
      rw [natChars, digitsToNatAux_natCharsAux (by omega) (lt_ten_pow_succ n)]
      simp
    rw [hrec]
    rfl
  · have hmk : pad2 n = natStr n := by
      unfold pad2; rw [if_neg h10]
    rw [hmk, pyInt_natStr]

theorem pad6_data (n : Nat) :
    (pad6 n).data = List.replicate (6 - (natChars n).length) '0' ++ natChars n := rfl

theorem pad6_digits (n : Nat) :
    ∀ c ∈ (pad6 n).data, ∃ d, d < 10 ∧ c = digitChar d := by
  intro c hc
  rw [pad6_data] at hc
  rcases List.mem_append.mp hc with hc | hc
  · exact ⟨0, by omega, by rw [List.eq_of_mem_replicate hc]; decide⟩
  · exact natChars_digits hc

theorem pad6_ne_nil (n : Nat) : (pad6 n).data ≠ [] := by
  rw [pad6_data]
  intro h
  rcases List.append_eq_nil.mp h with ⟨_, h2⟩
  exact natChars_ne_nil n h2

theorem pyInt_pad6 (n : Nat) : pyInt (pad6 n) = some (n : Int) := by
  have hne : (List.replicate (6 - (natChars n).length) '0' ++ natChars n) ≠ [] := by
    have := pad6_ne_nil n
    rwa [pad6_data] at this
  have hdig : ∀ c ∈ List.replicate (6 - (natChars n).length) '0' ++ natChars n,
      ∃ d, d < 10 ∧ c = digitChar d := by
    have := pad6_digits n
    rwa [pad6_data] at this
  show pyInt
    (String.mk (List.replicate (6 - (natChars n).length) '0' ++ natChars n)) = _
  rw [pyInt_of_digits hne hdig, digitsToNat_of_ne_nil hne, digitsToNatAux_zeros,
    ← digitsToNat_of_ne_nil (natChars_ne_nil n), digitsToNat_natChars]
  rfl

/-! ## Split lemmas -/

theorem splitOnChar_not_mem {sep : Char} {l : List Char} (h : sep ∉ l) :
    splitOnChar sep l = [l] := by
  induction l with
  | nil => rfl
  | cons c cs ih =>
    have h1 : ¬(c = sep) := fun he => h (by simp [he])
    have h2 : sep ∉ cs := fun hm => h (List.mem_cons_of_mem _ hm)
    simp only [splitOnChar, if_neg h1, ih h2]

theorem splitOnChar_append {sep : Char} {l1 : List Char} (l2 : List Char)
    (h : sep ∉ l1) :
    splitOnChar sep (l1 ++ sep :: l2) = l1 :: splitOnChar sep l2 := by
  induction l1 with
  | nil => simp [splitOnChar]
  | cons c cs ih =>
    have h1 : ¬(c = sep) := fun he => h (by simp [he])
    have h2 : sep ∉ cs := fun hm => h (List.mem_cons_of_mem _ hm)
    simp only [List.cons_append, splitOnChar, if_neg h1, List.append_eq]
    rw [ih h2]

theorem string_mk_data (s : String) : String.mk s.data = s := rfl

theorem no_colon_of_digits {l : List Char}
    (h : ∀ c ∈ l, ∃ d, d < 10 ∧ c = digitChar d) : ':' ∉ l := by
  intro hm
  obtain ⟨d, hd, hc⟩ := h ':' hm
  exact digitChar_ne_colon hd hc.symm

theorem no_dot_of_digits {l : List Char}
    (h : ∀ c ∈ l, ∃ d, d < 10 ∧ c = digitChar d) : '.' ∉ l := by
  intro hm
  obtain ⟨d, hd, hc⟩ := h '.' hm
  exact digitChar_ne_dot hd hc.symm

/-- Splitting `a ++ ":" ++ b ++ ":" ++ c` at colons yields `[a, b, c]` when
no component contains a colon. -/
theorem pySplit_colon3 (a b c : String)
    (ha : ':' ∉ a.data) (hb : ':' ∉ b.data) (hc : ':' ∉ c.data) :
    pySplit ':' (a ++ ":" ++ b ++ ":" ++ c) = [a, b, c] := by
  have hdata : (a ++ ":" ++ b ++ ":" ++ c).data =
      a.data ++ ':' :: (b.data ++ ':' :: c.data) := by
    simp [String.data_append]
  rw [pySplit, hdata, splitOnChar_append _ ha, splitOnChar_append _ hb,
    splitOnChar_not_mem hc]
  simp [string_mk_data]

/-- Colon-splitting when the seconds component carries a fractional tail. -/
theorem pySplit_colon3_frac (a b c d : String)
    (ha : ':' ∉ a.data) (hb : ':' ∉ b.data) (hc : ':' ∉ c.data)
    (hd : ':' ∉ d.data) :
    pySplit ':' (a ++ ":" ++ b ++ ":" ++ c ++ "." ++ d) =
      [a, b, c ++ "." ++ d] := by
  have hdata : (a ++ ":" ++ b ++ ":" ++ c ++ "." ++ d).data =
      a.data ++ ':' :: (b.data ++ ':' :: (c ++ "." ++ d).data) := by
    simp [String.data_append]
  have htail : ':' ∉ (c ++ "." ++ d).data := by
    simp only [String.data_append]
    intro hm
    rcases List.mem_append.mp hm with hm | hm
    · rcases List.mem_append.mp hm with hm | hm
      · exact hc hm
      · simp at hm
    · exact hd hm
  rw [pySplit, hdata, splitOnChar_append _ ha, splitOnChar_append _ hb,
    splitOnChar_not_mem htail]
  have hcd : String.mk (c.data ++ '.' :: d.data) = c ++ "." ++ d := by
    have : (c ++ "." ++ d).data = c.data ++ '.' :: d.data := by
      simp [String.data_append]
    rw [← this, string_mk_data]
  simp only [List.map_cons, List.map_nil, string_mk_data, hcd]

/-- Splitting a separator-free string is the one-element list. -/
theorem pySplit_no_sep (sep : Char) (s : String) (h : sep ∉ s.data) :
    pySplit sep s = [s] := by
  rw [pySplit, splitOnChar_not_mem h]
  simp [string_mk_data]

/-- Dot-splitting `a ++ "." ++ b` with dot-free components. -/
theorem pySplit_dot2 (a b : String) (ha : '.' ∉ a.data) (hb : '.' ∉ b.data) :
    pySplit '.' (a ++ "." ++ b) = [a, b] := by
  have hdata : (a ++ "." ++ b).data = a.data ++ '.' :: b.data := by
    simp [String.data_append]
  rw [pySplit, hdata, splitOnChar_append _ ha, splitOnChar_not_mem hb]
  simp [string_mk_data]

theorem natStr_no_colon (n : Nat) : ':' ∉ (natStr n).data := by
  rw [natStr_data]
  exact no_colon_of_digits fun c hc => natChars_digits hc

theorem pad2_no_colon (n : Nat) : ':' ∉ (pad2 n).data :=
  no_colon_of_digits (pad2_digits n)

theorem pad2_no_dot (n : Nat) : '.' ∉ (pad2 n).data :=
  no_dot_of_digits (pad2_digits n)

theorem pad6_no_colon (n : Nat) : ':' ∉ (pad6 n).data :=
  no_colon_of_digits (pad6_digits n)

theorem pad6_no_dot (n : Nat) : '.' ∉ (pad6 n).data :=
  no_dot_of_digits (pad6_digits n)

theorem pad2i_eq_pad2 {i : Int} (h : 0 ≤ i) : pad2i i = pad2 i.toNat := by
  rw [pad2i, if_neg (by omega)]
  congr 1
  omega

/-! ## Duration round-trip -/

/-- A duration of at least zero and under one day serializes to an
`H:MM:SS[.ffffff]` string that parses back to the identical number of
microseconds. -/
theorem pyParseElapsed_pyTimedeltaStr {us : Int} (h0 : 0 ≤ us)
    (h1 : us < 86400000000) :
    pyParseElapsed (pyTimedeltaStr us) = some us := by
  have hm0 : 0 ≤ us % 1000000 := Int.emod_nonneg us (by norm_num)
  have ht0 : 0 ≤ us / 1000000 := Int.ediv_nonneg h0 (by norm_num)
  have hdays : us / 1000000 / 86400 = 0 := by omega
  have hsecs : us / 1000000 % 86400 = us / 1000000 := by omega
  have hh0 : 0 ≤ us / 1000000 / 3600 := Int.ediv_nonneg ht0 (by norm_num)
  have hmm0 : 0 ≤ us / 1000000 % 3600 / 60 :=
    Int.ediv_nonneg (Int.emod_nonneg _ (by norm_num)) (by norm_num)
  have hss0 : 0 ≤ us / 1000000 % 60 := Int.emod_nonneg _ (by norm_num)
  have hcast : ((us / 1000000 / 3600).toNat : Int) * 3600 +
      ((us / 1000000 % 3600 / 60).toNat : Int) * 60 +
      ((us / 1000000 % 60).toNat : Int) = us / 1000000 := by
    rw [Int.toNat_of_nonneg hh0, Int.toNat_of_nonneg hmm0, Int.toNat_of_nonneg hss0]
    omega
  simp only [pyTimedeltaStr, hdays, hsecs, ne_eq, not_true_eq_false,
    not_false_eq_true, ite_false, ite_true]
  by_cases hmz : us % 1000000 = 0
  · rw [if_neg (by simp [hmz])]
    rw [pyParseElapsed,
      pySplit_colon3 _ _ _ (natStr_no_colon _) (pad2_no_colon _) (pad2_no_colon _)]
    simp only [List.get?_cons_zero, List.get?_cons_succ, pyInt_natStr, pyInt_pad2,
      pySplit_no_sep '.' _ (pad2_no_dot _), List.get?_nil]
    simp only [Option.map_some', Option.some.injEq]
    rw [show ((us / 1000000 / 3600).toNat : Int) * 3600 +
        ((us / 1000000 % 3600 / 60).toNat : Int) * 60 +
        ((us / 1000000 % 60).toNat : Int) = us / 1000000 from hcast]
    omega
  · rw [if_pos (by simp [hmz])]
    rw [pyParseElapsed,
      pySplit_colon3_frac _ _ _ _ (natStr_no_colon _) (pad2_no_colon _)
        (pad2_no_colon _) (pad6_no_colon _)]
    simp only [List.get?_cons_zero, List.get?_cons_succ, pyInt_natStr, pyInt_pad2,
      pySplit_dot2 _ _ (pad2_no_dot _) (pad6_no_dot _), pyInt_pad6]
    simp only [Option.map_some', Option.some.injEq]
    rw [show ((us / 1000000 / 3600).toNat : Int) * 3600 +
        ((us / 1000000 % 3600 / 60).toNat : Int) * 60 +
        ((us / 1000000 % 60).toNat : Int) = us / 1000000 from hcast,
      Int.toNat_of_nonneg hm0]
    omega

/-! ## Formatted-time parsing for the export sort key -/

/-- `_parse_time_to_seconds` applied to `format_elapsed_time` of a
nonnegative elapsed time recovers its whole-second truncation. -/
theorem parse_time_format_elapsed (e : FinishEntry) (h : 0 ≤ e.elapsed_time) :
    parse_time_to_seconds e.format_elapsed_time =
      some (e.elapsed_time / 1000000) := by
  have htd : Int.tdiv e.elapsed_time 1000000 = e.elapsed_time / 1000000 :=
    Int.tdiv_eq_ediv h (by norm_num)
  have ht0 : 0 ≤ e.elapsed_time / 1000000 := Int.ediv_nonneg h (by norm_num)
  have hfd1 : Int.fdiv (e.elapsed_time / 1000000) 3600 =
      e.elapsed_time / 1000000 / 3600 := Int.fdiv_eq_ediv _ (by norm_num)
  have hfd2 : Int.fdiv (e.elapsed_time / 1000000 % 3600) 60 =
      e.elapsed_time / 1000000 % 3600 / 60 := Int.fdiv_eq_ediv _ (by norm_num)
  have hh0 : 0 ≤ e.elapsed_time / 1000000 / 3600 :=
    Int.ediv_nonneg ht0 (by norm_num)
  have hmm0 : 0 ≤ e.elapsed_time / 1000000 % 3600 / 60 :=
    Int.ediv_nonneg (Int.emod_nonneg _ (by norm_num)) (by norm_num)
  have hss0 : 0 ≤ e.elapsed_time / 1000000 % 60 := Int.emod_nonneg _ (by norm_num)
  simp only [FinishEntry.format_elapsed_time, htd, hfd1, hfd2,
    pad2i_eq_pad2 hh0, pad2i_eq_pad2 hmm0, pad2i_eq_pad2 hss0]
  simp only [parse_time_to_seconds,
    pySplit_colon3 _ _ _ (pad2_no_colon _) (pad2_no_colon _) (pad2_no_colon _),
    List.get?_cons_zero, List.get?_cons_succ, pyInt_pad2, Option.some.injEq]
  rw [Int.toNat_of_nonneg hh0, Int.toNat_of_nonneg hmm0, Int.toNat_of_nonneg hss0]
  omega

/-! ## Persistence round-trip lemmas -/

theorem ofValue_value (s : TimerState) : TimerState.ofValue s.value = some s := by
  cases s <;> rfl

theorem pyTimedeltaStr_zero : pyTimedeltaStr 0 = "0:00:00" := by decide

theorem timer_from_to_dict (t : Timer) (h : durOK t.accumulated_pause_duration) :
    Timer.from_dict t.to_dict = some t := by
  obtain ⟨h0, h1⟩ := h
  have hrt : pyParseElapsed (pyTimedeltaStr t.accumulated_pause_duration) =
      some t.accumulated_pause_duration := pyParseElapsed_pyTimedeltaStr h0 h1
  simp only [Timer.to_dict, Timer.from_dict, ofValue_value]
  by_cases hz : t.accumulated_pause_duration = 0
  · rw [if_neg]
    · rw [← hz]
    · rw [hz, pyTimedeltaStr_zero]
      simp
  · have hcond : pyTimedeltaStr t.accumulated_pause_duration ≠ "" ∧
        pyTimedeltaStr t.accumulated_pause_duration ≠ "0:00:00" := by
      constructor
      · intro he
        rw [he] at hrt
        have hnone : pyParseElapsed "" = none := by decide
        rw [hnone] at hrt
        simp at hrt
      · intro he
        rw [he] at hrt
        have h000 : pyParseElapsed "0:00:00" = some 0 := by decide
        rw [h000] at hrt
        exact hz (by simpa using hrt.symm)
    rw [if_pos hcond, hrt]
    rfl

theorem entry_from_to_dict (e : FinishEntry) (h : durOK e.elapsed_time) :
    FinishEntry.from_dict e.to_dict = some e := by
  simp only [FinishEntry.to_dict, FinishEntry.from_dict,
    pyParseElapsed_pyTimedeltaStr h.1 h.2, Option.map_some']

theorem mapM_entry_from_to (l : List FinishEntry)
    (h : ∀ e ∈ l, durOK e.elapsed_time) :
    (l.map FinishEntry.to_dict).mapM FinishEntry.from_dict = some l := by
  induction l with
  | nil => rfl
  | cons e es ih =>
    rw [List.map_cons, List.mapM_cons, entry_from_to_dict e (h e (by simp)),
      ih (fun x hx => h x (List.mem_cons_of_mem _ hx))]
    rfl

theorem category_from_to_dict (c : Category)
    (ht : durOK c.timer.accumulated_pause_duration)
    (he : ∀ e ∈ c.entries, durOK e.elapsed_time) :
    Category.from_dict c.to_dict = some c := by
  simp only [Category.to_dict, Category.from_dict, timer_from_to_dict c.timer ht,
    mapM_entry_from_to c.entries he, Option.bind_some, Option.pure_def]
  rfl

theorem mapM_category_from_to (l : List Category)
    (h : ∀ c ∈ l, durOK c.timer.accumulated_pause_duration ∧
      ∀ e ∈ c.entries, durOK e.elapsed_time) :
    (l.map Category.to_dict).mapM Category.from_dict = some l := by
  induction l with
  | nil => rfl
  | cons c cs ih =>
    rw [List.map_cons, List.mapM_cons,
      category_from_to_dict c (h c (by simp)).1 (h c (by simp)).2,
      ih (fun x hx => h x (List.mem_cons_of_mem _ hx))]
    rfl

theorem clamp_eq_max (e : Int) : (if e > 0 then e else 0) = max 0 e := by
  omega

theorem findIdx?_bounds {p : α → Bool} {l : List α} :
    ∀ {s i : Nat}, l.findIdx? p s = some i → s ≤ i ∧ i < s + l.length := by
  induction l with
  | nil => intro s i h; simp [List.findIdx?] at h
  | cons x xs ih =>
    intro s i h
    rw [List.findIdx?_cons] at h
    by_cases hp : p x
    · rw [if_pos hp] at h
      cases h
      simp
    · rw [if_neg hp] at h
      have := ih h
      constructor
      · omega
      · simp only [List.length_cons]
        omega

theorem findIdx?_lt_length {p : α → Bool} {l : List α} {i : Nat}
    (h : l.findIdx? p = some i) : i < l.length := by
  have := findIdx?_bounds h
  omega

/-! # Claims -/

/-! ## C10: finished count -/

/-- C10: `get_finished_count` returns the number of ledger entries with
`is_dnf = false`; the count is insensitive to every entry's `is_valid_id`
flag, so invalid-id entries (and duplicate submissions, which are separate
ledger entries) count as finishers. -/
theorem C10_get_finished_count (c : Category) :
    c.get_finished_count =
      (c.entries.filter (fun e => e.is_dnf = false)).length ∧
    ∀ g : FinishEntry → Bool,
      Category.get_finished_count
        { c with entries := c.entries.map (fun e => { e with is_valid_id := g e }) } =
      c.get_finished_count := by
  constructor
  · simp [Category.get_finished_count]
  · intro g
    simp only [Category.get_finished_count, List.filter_map, List.length_map]
    exact congrArg List.length (List.filter_congr (fun e _ => rfl))

/-! ## C4: elapsed-time computation -/

/-- C4: for a timer whose recorded timestamps are consistent with its state
(present whenever the state needs them, as every timer produced by the
state machine or a well-formed load satisfies), `get_elapsed_time` returns
zero in NotStarted, and otherwise `max 0 (end − start − accumulated_pause)`
where the end anchor is `at_time` when supplied, else `stop_time` when
Stopped, else `pause_time` when Paused, else the current wall clock. -/
theorem C4_get_elapsed_time (t : Timer) (at_time : Option Int) (now : Int)
    (hstop : t.state = TimerState.STOPPED → t.stop_time ≠ none)
    (hpause : t.state = TimerState.PAUSED → t.pause_time ≠ none) :
    (t.state = TimerState.NOT_STARTED → t.get_elapsed_time at_time now = 0) ∧
    (t.state ≠ TimerState.NOT_STARTED → ∀ s, t.start_time = some s →
      t.get_elapsed_time at_time now =
        max 0 ((match at_time with
          | some a => a
          | none =>
            match t.state with
            | TimerState.STOPPED => t.stop_time.getD now
            | TimerState.PAUSED => t.pause_time.getD now
            | _ => now) - s - t.accumulated_pause_duration)) := by
  constructor
  · intro hns
    simp [Timer.get_elapsed_time, hns]
  · intro hns s hs
    simp only [Timer.get_elapsed_time, if_neg hns, hs]
    rw [← clamp_eq_max]
    cases at_time with
    | some a => rfl
    | none =>
      cases hstate : t.state with
      | NOT_STARTED => exact absurd hstate hns
      | RUNNING => rfl
      | STOPPED =>
        cases hst : t.stop_time with
        | none => exact absurd hst (hstop hstate)
        | some v => simp
      | PAUSED =>
        cases hpt : t.pause_time with
        | none => exact absurd hpt (hpause hstate)
        | some v =>
          cases hst : t.stop_time with
          | none => simp
          | some w => simp

/-- C4 witness: a running timer started at 0 with no pauses, read at
95 seconds. -/
theorem C4_get_elapsed_time_witness :
    catA.timer.get_elapsed_time none 95000000 = max 0 (95000000 - 0 - 0) := by
  have h := (C4_get_elapsed_time catA.timer none 95000000 (by decide)
    (by decide)).2 (by decide) 0 rfl
  simpa using h

/-! ## C3: per-category ranking -/

/-- C3 (code bug): in a ledger where a DNF entry has a smaller elapsed time
than the only finisher, the per-category sheet gives the finisher Rank 2 —
`enumerate` counts the skipped DNF entry — though the specified 1-based
position in the non-DNF sorted view is 1 (as the combined sheet itself
computes).  The DNF row does follow the ranked rows with label DNF. -/
theorem C3_rank_counts_dnf :
    (create_category_rows catC).map CatRow.rank =
      [RankLabel.num 2, RankLabel.dnf] := by decide

/-! ## C2: session save/load round-trip -/

/-- C2 (amended): for a session whose elapsed times and accumulated pause
durations are all nonnegative and under 24 hours, saving and loading
reproduces every category exactly — names in order, timer states and
timestamps, all FinishEntry fields to the microsecond, rosters — along
with the session name and creation timestamp. -/
theorem C2_save_load_round_trip (s : Session) (genName : String) (now : Int)
    (h : s.durationsOK) :
    Session.load_data (Session.save_data s genName now) =
      some { categories := s.categories
             session_name := if s.session_name = "" then genName else s.session_name
             created_at := s.created_at
             last_saved := some now } := by
  simp only [Session.save_data, Session.load_data,
    mapM_category_from_to s.categories h]
  rfl

/-- C2 witness: the two-category sample session round-trips. -/
theorem C2_save_load_round_trip_witness :
    Session.load_data (Session.save_data stAB.session "g" 42) =
      some { categories := stAB.session.categories
             session_name := "s"
             created_at := 0
             last_saved := some 42 } := by
  have h := C2_save_load_round_trip stAB.session "g" 42 (by decide)
  simpa using h

/-- C2 counterexample: a session whose single entry has exactly one day of
elapsed time serializes it as `"1 day, 0:00:00"` — not a colon-delimited
`H:MM:SS[.ffffff]` string — and the saved session fails to load at all. -/
theorem C2_one_day_fails :
    (FinishEntry.to_dict
        { invalidEntry with elapsed_time := 86400000000 }).elapsed_time =
      "1 day, 0:00:00" ∧
    Session.load_data (Session.save_data sessionDay "g" 0) = none := by
  constructor
  · decide
  · decide

/-- Any submission with nonempty trimmed input and at least one category
appends exactly one entry (carrying the fresh entry id) to some category
and pushes the pair onto the undo stack. -/
theorem process_entry_shape (st : AppState) (raw nid : String) (tF tE : Int)
    (htrim : pyStrip raw ≠ "") (hcats : st.session.categories ≠ []) :
    ∃ (tgt : Nat) (entry : FinishEntry) (htgt : tgt < st.session.categories.length),
      entry.entry_id = nid ∧
      entry.category_name = (st.session.categories.get ⟨tgt, htgt⟩).name ∧
      process_entry st raw nid tF tE =
        { session := modifyCat st.session tgt (fun c => c.add_entry entry)
          last_entries :=
            if (st.last_entries ++ [(nid, tgt)]).length > 10 then
              (st.last_entries ++ [(nid, tgt)]).tail
            else st.last_entries ++ [(nid, tgt)] } := by
  cases hfound : find_participant_category_idx (pyStrip raw) st.session.categories with
  | some i =>
    have hfound' : st.session.categories.findIdx?
        (fun c => c.has_participant (pyStrip (pyStrip raw))) = some i := hfound
    have hi : i < st.session.categories.length := findIdx?_lt_length hfound'
    have hc : st.session.categories.get? i =
        some (st.session.categories.get ⟨i, hi⟩) := List.get?_eq_get hi
    refine ⟨i, { entry_id := nid
                 participant_id := pyStrip raw
                 category_name := (st.session.categories.get ⟨i, hi⟩).name
                 finish_time := tF
                 elapsed_time :=
                   (st.session.categories.get ⟨i, hi⟩).timer.get_elapsed_time none tE
                 first_name := ((st.session.categories.get ⟨i, hi⟩).get_participant_data
                   (pyStrip raw)).map Participant.first_name
                 last_name := ((st.session.categories.get ⟨i, hi⟩).get_participant_data
                   (pyStrip raw)).map Participant.last_name
                 team := ((st.session.categories.get ⟨i, hi⟩).get_participant_data
                   (pyStrip raw)).map Participant.team
                 birth_year := ((st.session.categories.get ⟨i, hi⟩).get_participant_data
                   (pyStrip raw)).map Participant.birth_year
                 gender := ((st.session.categories.get ⟨i, hi⟩).get_participant_data
                   (pyStrip raw)).map Participant.gender
                 is_valid_id := true, is_dnf := false, notes := "" }, hi, rfl, rfl, ?_⟩
    simp only [process_entry, if_neg htrim, hfound, hc]
    rfl
  | none =>
    cases hrun : st.session.categories.findIdx? (fun c => c.timer.is_running) with
    | some i =>
      have hi : i < st.session.categories.length := findIdx?_lt_length hrun
      have hc : st.session.categories.get? i =
          some (st.session.categories.get ⟨i, hi⟩) := List.get?_eq_get hi
      refine ⟨i, { entry_id := nid
                   participant_id := pyStrip raw
                   category_name := (st.session.categories.get ⟨i, hi⟩).name
                   finish_time := tF
                   elapsed_time :=
                     (st.session.categories.get ⟨i, hi⟩).timer.get_elapsed_time none tE
                   first_name := none, last_name := none, team := none
                   birth_year := none, gender := none
                   is_valid_id := false, is_dnf := false, notes := "" }, hi, rfl, rfl, ?_⟩
      simp only [process_entry, if_neg htrim, hfound, hrun, hc]
      rfl
    | none =>
      have h0 : 0 < st.session.categories.length := List.length_pos.mpr hcats
      have hne : st.session.categories.isEmpty = false := by
        cases hl : st.session.categories with
        | nil => exact absurd hl hcats
        | cons a l => rfl
      have hc : st.session.categories.get? 0 =
          some (st.session.categories.get ⟨0, h0⟩) := List.get?_eq_get h0
      refine ⟨0, { entry_id := nid
                   participant_id := pyStrip raw
                   category_name := (st.session.categories.get ⟨0, h0⟩).name
                   finish_time := tF
                   elapsed_time :=
                     (st.session.categories.get ⟨0, h0⟩).timer.get_elapsed_time none tE
                   first_name := none, last_name := none, team := none
                   birth_year := none, gender := none
                   is_valid_id := false, is_dnf := false, notes := "" }, h0, rfl, rfl, ?_⟩
      simp only [process_entry, if_neg htrim, hfound, hrun, hne, Bool.false_eq_true,
        if_false, hc]
      rfl

/-! ## C5: unresolvable submitted id -/

/-- C5: a submission that trims to empty creates nothing and raises no
error; with no categories configured an unresolvable id aborts with no
entry created; otherwise an unresolvable id appends an entry — flagged
invalid, with empty identity fields, fresh entry id, and the trimmed input
as participant id — to the first category with a running timer, else the
first category in session order, leaving every other category unchanged. -/
theorem C5_unresolvable_id (st : AppState) (raw nid : String) (tF tE : Int) :
    (pyStrip raw = "" → process_entry st raw nid tF tE = st) ∧
    (st.session.categories = [] → process_entry st raw nid tF tE = st) ∧
    (pyStrip raw ≠ "" → st.session.categories ≠ [] →
      find_participant_category_idx (pyStrip raw) st.session.categories = none →
      ∃ e : FinishEntry,
        e.is_valid_id = false ∧ e.first_name = none ∧ e.last_name = none ∧
        e.team = none ∧ e.birth_year = none ∧ e.gender = none ∧
        e.participant_id = pyStrip raw ∧ e.entry_id = nid ∧
        (process_entry st raw nid tF tE).session.categories =
          modifyIdx st.session.categories
            ((st.session.categories.findIdx? (fun c => c.timer.is_running)).getD 0)
            (fun c => c.add_entry e)) := by
  refine ⟨?_, ?_, ?_⟩
  · intro h
    simp [process_entry, h]
  · intro hcats
    by_cases htrim : pyStrip raw = ""
    · simp [process_entry, htrim]
    · simp [process_entry, htrim, hcats, find_participant_category_idx]
  · intro htrim hcats hfound
    cases hrun : st.session.categories.findIdx? (fun c => c.timer.is_running) with
    | some i =>
      have hi : i < st.session.categories.length := findIdx?_lt_length hrun
      have hc : st.session.categories.get? i =
          some (st.session.categories.get ⟨i, hi⟩) := List.get?_eq_get hi
      refine ⟨{ entry_id := nid
                participant_id := pyStrip raw
                category_name := (st.session.categories.get ⟨i, hi⟩).name
                finish_time := tF
                elapsed_time :=
                  (st.session.categories.get ⟨i, hi⟩).timer.get_elapsed_time none tE
                first_name := none, last_name := none, team := none
                birth_year := none, gender := none
                is_valid_id := false, is_dnf := false, notes := "" },
        rfl, rfl, rfl, rfl, rfl, rfl, rfl, rfl, ?_⟩
      simp only [process_entry, if_neg htrim, hfound, hrun, hc, Option.getD_some]
      rfl
    | none =>
      have h0 : 0 < st.session.categories.length := List.length_pos.mpr hcats
      have hne : st.session.categories.isEmpty = false := by
        cases hl : st.session.categories with
        | nil => exact absurd hl hcats
        | cons a l => rfl
      have hc : st.session.categories.get? 0 =
          some (st.session.categories.get ⟨0, h0⟩) := List.get?_eq_get h0
      refine ⟨{ entry_id := nid
                participant_id := pyStrip raw
                category_name := (st.session.categories.get ⟨0, h0⟩).name
                finish_time := tF
                elapsed_time :=
                  (st.session.categories.get ⟨0, h0⟩).timer.get_elapsed_time none tE
                first_name := none, last_name := none, team := none
                birth_year := none, gender := none
                is_valid_id := false, is_dnf := false, notes := "" },
        rfl, rfl, rfl, rfl, rfl, rfl, rfl, rfl, ?_⟩
      simp only [process_entry, if_neg htrim, hfound, hrun, hne, Bool.false_eq_true,
        if_false, hc, Option.getD_none]
      rfl

/-- C5 witness: submitting the unknown id `5` into the two-category sample
session (both timers running) appends an invalid entry to the first
category. -/
theorem C5_unresolvable_id_witness :
    ∃ e : FinishEntry,
      e.is_valid_id = false ∧ e.first_name = none ∧ e.last_name = none ∧
      e.team = none ∧ e.birth_year = none ∧ e.gender = none ∧
      e.participant_id = pyStrip "5" ∧ e.entry_id = "w1" ∧
      (process_entry stAB "5" "w1" 3 4).session.categories =
        modifyIdx stAB.session.categories
          ((stAB.session.categories.findIdx? (fun c => c.timer.is_running)).getD 0)
          (fun c => c.add_entry e) :=
  (C5_unresolvable_id stAB "5" "w1" 3 4).2.2 (by decide) (by decide) (by decide)

/-! ## C1: undo -/

theorem modifyCat_modifyCat (s : Session) (i : Nat) (f g : Category → Category) :
    modifyCat (modifyCat s i f) i g = modifyCat s i (fun c => g (f c)) := by
  simp only [modifyCat, modifyIdx_modifyIdx]

theorem modifyCat_eq_self {s : Session} {i : Nat} {f : Category → Category}
    (h : ∀ c ∈ s.categories, f c = c) : modifyCat s i f = s := by
  simp only [modifyCat, modifyIdx_eq_self h]

/-- C1 (amended): undo with an empty stack changes nothing, and undoing
right after a submission (fresh entry id, stack below capacity) restores
the previous state exactly: the new entry is removed by entry id from the
category recorded at submission time.  (When an edit has moved the entry to
a different category since, the removal targets the recorded category and
the entry survives in its new ledger — see the counterexample.) -/
theorem C1_undo_last_submission (st : AppState) (raw nid : String) (tF tE : Int)
    (htrim : pyStrip raw ≠ "")
    (hcats : st.session.categories ≠ [])
    (hfresh : ∀ c ∈ st.session.categories, ∀ e ∈ c.entries, e.entry_id ≠ nid)
    (hstack : st.last_entries.length < 10) :
    (st.last_entries = [] → undo_last_entry st = st) ∧
    undo_last_entry (process_entry st raw nid tF tE) = st := by
  constructor
  · intro h
    simp [undo_last_entry, h]
  · obtain ⟨tgt, entry, htgt, hid, hname, hshape⟩ :=
      process_entry_shape st raw nid tF tE htrim hcats
    rw [hshape]
    have hlen : ¬(st.last_entries ++ [(nid, tgt)]).length > 10 := by
      simp only [List.length_append, List.length_singleton]
      omega
    rw [if_neg hlen]
    simp only [undo_last_entry, List.getLast?_concat, List.dropLast_concat]
    have hsess : modifyCat (modifyCat st.session tgt (fun c => c.add_entry entry))
        tgt (fun c =>
          { c with entries := c.entries.filter (fun e => !(e.entry_id == nid)) }) =
        st.session := by
      rw [modifyCat_modifyCat]
      apply modifyCat_eq_self
      intro a ha
      show { a with entries :=
        (a.entries ++ [entry]).filter (fun e => !(e.entry_id == nid)) } = a
      rw [List.filter_append]
      have h1 : a.entries.filter (fun e => !(e.entry_id == nid)) = a.entries := by
        apply List.filter_eq_self.mpr
        intro e he
        have := hfresh a ha e he
        simp [this]
      have h2 : [entry].filter (fun e => !(e.entry_id == nid)) = [] := by
        simp [List.filter, hid]
      rw [h1, h2, List.append_nil]
    rw [hsess]

/-- C1 witness: submit the id `9` into the sample session and undo. -/
theorem C1_undo_last_submission_witness :
    (stAB.last_entries = [] → undo_last_entry stAB = stAB) ∧
    undo_last_entry (process_entry stAB "9" "e1" 95000000 95000000) = stAB :=
  C1_undo_last_submission stAB "9" "e1" 95000000 95000000 (by decide) (by decide)
    (by decide) (by decide)

/-- C1 counterexample: submit unknown-to-A id `9` (entry lands in category
B), edit it to `7` (entry moves to category A), undo.  The claim says undo
removes the entry from the ledger it belongs to at undo time; instead the
removal targets B — the category recorded at submission — and the entry is
still in category A's ledger after the undo, with the stack emptied. -/
theorem C1_undo_misses_moved_entry :
    ((stAfterUndo.session.categories.get? 0).map
        (fun c => c.entries.map FinishEntry.entry_id) = some ["e1"]) ∧
    ((stAfterUndo.session.categories.get? 1).map
        (fun c => c.entries.map FinishEntry.entry_id) = some []) ∧
    stAfterUndo.last_entries = [] := by
  refine ⟨?_, ?_, ?_⟩ <;> decide

/-! ## C8: same-id edit idempotence -/

/-- C8 counterexample: the dialog edit path has no same-id guard; editing
an invalid-id entry (identity fields `None`) to its current participant id
re-resolves it and rewrites the identity fields to empty strings — a state
change. -/
theorem C8_dialog_edit_not_idempotent :
    edit_entry stInvalid "e1" "A" "9" ≠ stInvalid ∧
    ((edit_entry stInvalid "e1" "A" "9").session.categories.get? 0).map
        (fun c => c.entries.map FinishEntry.first_name) = some [some ""] ∧
    ((stInvalid.session.categories.get? 0).map
        (fun c => c.entries.map FinishEntry.first_name)) = some [none] := by
  refine ⟨?_, ?_, ?_⟩ <;> decide

/-- C8 (amended): editing through the recent-entries table to the entry's
current participant id is a strict no-op (the handler returns before any
mutation); only the dialog path re-resolves and may rewrite the identity
fields' representation. -/
theorem C8_table_edit_idempotent (st : AppState) (eid txt : String)
    (ci j : Nat) (e : FinishEntry)
    (hloc : locateEntry st.session eid = some (ci, j, e))
    (heq : pyStrip txt = e.participant_id) :
    on_recent_entry_item_changed st eid txt = st := by
  by_cases h1 : pyStrip txt = "" ∨ eid = ""
  · simp [on_recent_entry_item_changed, h1]
  · simp only [on_recent_entry_item_changed, if_neg h1, hloc]
    rw [if_pos heq]

/-- C8 witness: a table edit writing the entry's own id back. -/
theorem C8_table_edit_idempotent_witness :
    on_recent_entry_item_changed stInvalid "e1" "9" = stInvalid :=
  C8_table_edit_idempotent stInvalid "e1" "9" 0 0 invalidEntry (by decide)
    (by decide)

/-! ## C7: edits never touch the frame fields -/

theorem frameSum_modifyIdx (l : List Category) (i : Nat) (f : Category → Category)
    (hi : i < l.length) :
    ((modifyIdx l i f).map (fun c => frameMS c.entries)).sum +
        frameMS (l.get ⟨i, hi⟩).entries =
      (l.map (fun c => frameMS c.entries)).sum +
        frameMS (f (l.get ⟨i, hi⟩)).entries := by
  induction l generalizing i with
  | nil => simp at hi
  | cons x xs ih =>
    cases i with
    | zero =>
      simp only [modifyIdx, List.map_cons, List.sum_cons, List.get]
      abel
    | succ n =>
      have hn : n < xs.length := by simpa using Nat.lt_of_succ_lt_succ hi
      have key := ih (i := n) hn
      simp only [modifyIdx, List.map_cons, List.sum_cons, List.get]
      rw [add_assoc, add_assoc, key]

theorem allEntriesFrame_eq (s : Session) :
    allEntriesFrame s = (s.categories.map (fun c => frameMS c.entries)).sum := rfl

theorem frameMS_coe (l : List FinishEntry) :
    frameMS l = ((l.map frameProj : List _) : Multiset _) := rfl

/-- Replacing an entry by one with identical frame fields leaves the mapped
list unchanged. -/
theorem map_frame_set {l : List FinishEntry} {j : Nat} {e e2 : FinishEntry}
    (hj : l.get? j = some e) (hfp : frameProj e2 = frameProj e) :
    (l.set j e2).map frameProj = l.map frameProj := by
  obtain ⟨hjl, hge⟩ := List.get?_eq_some.mp hj
  rw [List.map_set, hfp, ← hge]
  have hjm : j < (l.map frameProj).length := by simpa using hjl
  have hg : frameProj (l.get ⟨j, hjl⟩) = (l.map frameProj).get ⟨j, hjm⟩ := by
    simp
  rw [hg, set_get_eq_self]

theorem frameMS_set {l : List FinishEntry} {j : Nat} {e e2 : FinishEntry}
    (hj : l.get? j = some e) (hfp : frameProj e2 = frameProj e) :
    frameMS (l.set j e2) = frameMS l := by
  rw [frameMS_coe, frameMS_coe, map_frame_set hj hfp]

/-- Removing the replaced entry returns the frame multiset to one tuple
short of the original ledger. -/
theorem erase_frame_ms {l : List FinishEntry} {j : Nat} {e e2 : FinishEntry}
    (hj : l.get? j = some e) (hfp : frameProj e2 = frameProj e) :
    frameMS ((l.set j e2).erase e2) + {frameProj e2} = frameMS l := by
  obtain ⟨hjl, hge⟩ := List.get?_eq_some.mp hj
  have hjl2 : j < (l.set j e2).length := by simpa using hjl
  have hmem : e2 ∈ l.set j e2 :=
    List.mem_iff_get.mpr ⟨⟨j, hjl2⟩, by simp⟩
  have hperm : (l.set j e2).Perm (e2 :: (l.set j e2).erase e2) :=
    List.perm_cons_erase hmem
  have hms : frameMS (l.set j e2) =
      frameProj e2 ::ₘ frameMS ((l.set j e2).erase e2) := by
    rw [frameMS_coe, frameMS_coe, Multiset.cons_coe]
    exact Multiset.coe_eq_coe.mpr (by simpa using hperm.map frameProj)
  rw [← frameMS_set hj hfp, hms, add_comm, Multiset.singleton_add]

/-- Replacing the entry at `j` by one with the same frame fields leaves the
session's frame multiset unchanged. -/
theorem frame_stay (s : Session) (ci j : Nat) {c : Category} {e e2 : FinishEntry}
    (hci : s.categories.get? ci = some c) (hj : c.entries.get? j = some e)
    (hfp : frameProj e2 = frameProj e) :
    allEntriesFrame
        (modifyCat s ci (fun cc => { cc with entries := cc.entries.set j e2 })) =
      allEntriesFrame s := by
  obtain ⟨hcilen, hgc⟩ := List.get?_eq_some.mp hci
  have key := frameSum_modifyIdx s.categories ci
    (fun cc => { cc with entries := cc.entries.set j e2 }) hcilen
  rw [hgc] at key
  rw [allEntriesFrame_eq, allEntriesFrame_eq, modifyCat]
  exact add_right_cancel (key.trans (by rw [show frameMS
    (({ c with entries := c.entries.set j e2 } : Category)).entries =
      frameMS c.entries from frameMS_set hj hfp]))

/-- Moving the re-resolved entry from category `ci` to category `fi`
preserves the session's frame multiset. -/
theorem frame_move (s : Session) (ci fi j : Nat) {c : Category}
    {e e2 e3 : FinishEntry}
    (hci : s.categories.get? ci = some c) (hj : c.entries.get? j = some e)
    (hfi : fi < s.categories.length)
    (hfp2 : frameProj e2 = frameProj e) (hfp3 : frameProj e3 = frameProj e2) :
    allEntriesFrame (modifyCat
        (modifyCat s ci
          (fun cc => { cc with entries := (cc.entries.set j e2).erase e2 }))
        fi (fun cc => cc.add_entry e3)) =
      allEntriesFrame s := by
  obtain ⟨hcilen, hgc⟩ := List.get?_eq_some.mp hci
  have key1 := frameSum_modifyIdx s.categories ci
    (fun cc => { cc with entries := (cc.entries.set j e2).erase e2 }) hcilen
  rw [hgc] at key1
  have hfilen1 : fi < (modifyIdx s.categories ci
      (fun cc => { cc with entries := (cc.entries.set j e2).erase e2 })).length := by
    rw [modifyIdx_length]
    exact hfi
  have key2 := frameSum_modifyIdx (modifyIdx s.categories ci
    (fun cc => { cc with entries := (cc.entries.set j e2).erase e2 })) fi
    (fun cc => cc.add_entry e3) hfilen1
  have herase := erase_frame_ms hj hfp2
  have hd2 : frameMS (((modifyIdx s.categories ci
      (fun cc => { cc with entries := (cc.entries.set j e2).erase e2 })).get
        ⟨fi, hfilen1⟩).add_entry e3).entries =
      frameMS ((modifyIdx s.categories ci
      (fun cc => { cc with entries := (cc.entries.set j e2).erase e2 })).get
        ⟨fi, hfilen1⟩).entries + {frameProj e3} := by
    rw [frameMS_coe, frameMS_coe]
    simp only [Category.add_entry, List.map_append, List.map_cons, List.map_nil]
    rw [← Multiset.coe_add]
    congr 1
  rw [hd2] at key2
  have h2 : ((modifyIdx (modifyIdx s.categories ci
      (fun cc => { cc with entries := (cc.entries.set j e2).erase e2 })) fi
      (fun cc => cc.add_entry e3)).map (fun cc => frameMS cc.entries)).sum =
      ((modifyIdx s.categories ci
        (fun cc => { cc with entries := (cc.entries.set j e2).erase e2 })).map
        (fun cc => frameMS cc.entries)).sum + {frameProj e3} := by
    apply add_right_cancel (b := frameMS ((modifyIdx s.categories ci
      (fun cc => { cc with entries := (cc.entries.set j e2).erase e2 })).get
        ⟨fi, hfilen1⟩).entries)
    rw [key2]
    abel
  have hE1 : frameMS (({ c with
      entries := (c.entries.set j e2).erase e2 } : Category)).entries =
      frameMS ((c.entries.set j e2).erase e2) := rfl
  rw [allEntriesFrame_eq, allEntriesFrame_eq, modifyCat, modifyCat]
  apply add_right_cancel (b := frameMS c.entries)
  calc ((modifyIdx (modifyIdx s.categories ci
        (fun cc => { cc with entries := (cc.entries.set j e2).erase e2 })) fi
        (fun cc => cc.add_entry e3)).map (fun cc => frameMS cc.entries)).sum +
        frameMS c.entries
      = (((modifyIdx s.categories ci
          (fun cc => { cc with entries := (cc.entries.set j e2).erase e2 })).map
          (fun cc => frameMS cc.entries)).sum + frameMS c.entries) +
          {frameProj e2} := by
        rw [h2, hfp3]
        abel
    _ = ((s.categories.map (fun cc => frameMS cc.entries)).sum +
          frameMS ((c.entries.set j e2).erase e2)) + {frameProj e2} := by
        rw [key1, hE1]
    _ = (s.categories.map (fun cc => frameMS cc.entries)).sum +
          (frameMS ((c.entries.set j e2).erase e2) + {frameProj e2}) := by
        rw [add_assoc]
    _ = (s.categories.map (fun cc => frameMS cc.entries)).sum +
          frameMS c.entries := by
        rw [herase]

/-- Re-resolving an entry in place (with or without a cross-category move)
preserves the multiset of frame-field tuples across all ledgers. -/
theorem applyEditAt_frame (s : Session) (ci j : Nat) (new_id : String) :
    allEntriesFrame (s.applyEditAt ci j new_id) = allEntriesFrame s := by
  cases hscr : (s.categories.get? ci).bind (fun c => c.entries.get? j) with
  | none => simp only [Session.applyEditAt, hscr]
  | some e =>
    cases hci : s.categories.get? ci with
    | none => rw [hci] at hscr; simp at hscr
    | some c =>
      rw [hci] at hscr
      have hj : c.entries.get? j = some e := hscr
      cases hfind : s.categories.findIdx? (fun cc => cc.has_participant new_id) with
      | none =>
        simp only [Session.applyEditAt, hci, Option.some_bind, hj, hfind]
        exact frame_stay s ci j hci hj rfl
      | some fi =>
        cases hfc : s.categories.get? fi with
        | none =>
          simp only [Session.applyEditAt, hci, Option.some_bind, hj, hfind, hfc]
        | some fc =>
          cases hp : fc.get_participant_data new_id with
          | none =>
            simp only [Session.applyEditAt, hci, Option.some_bind, hj, hfind, hfc, hp]
            exact frame_stay s ci j hci hj rfl
          | some p =>
            simp only [Session.applyEditAt, hci, Option.some_bind, hj, hfind, hfc, hp]
            split
            · exact frame_move s ci fi j hci hj (List.get?_eq_some.mp hfc).1 rfl rfl
            · exact frame_stay s ci j hci hj rfl

/-- C7: both edit paths — the dialog `edit_entry` and the recent-entries
table handler — preserve the multiset of
`(entry_id, elapsed_time, finish_time, is_dnf, notes)` tuples across all
ledgers: an edit never recomputes or alters any of these fields of any
entry, whether or not the new id resolves to a roster and whether or not
the entry moves to a different category. -/
theorem C7_edit_preserves_frame_fields (st : AppState)
    (eid cname txt eid2 txt2 : String) :
    allEntriesFrame (edit_entry st eid cname txt).session =
      allEntriesFrame st.session ∧
    allEntriesFrame (on_recent_entry_item_changed st eid2 txt2).session =
      allEntriesFrame st.session := by
  constructor
  · cases hgc : st.session.get_category_idx cname with
    | none => simp only [edit_entry, hgc]
    | some ci =>
      cases hgi : st.session.categories.get? ci with
      | none => simp only [edit_entry, hgc, hgi]
      | some c =>
        cases hfi : c.entries.findIdx? (fun e => e.entry_id == eid) with
        | none => simp only [edit_entry, hgc, hgi, hfi]
        | some j =>
          simp only [edit_entry, hgc, hgi, hfi]
          split
          · rfl
          · exact applyEditAt_frame st.session ci j (pyStrip txt)
  · by_cases hg : pyStrip txt2 = "" ∨ eid2 = ""
    · simp only [on_recent_entry_item_changed, if_pos hg]
    · cases hloc : locateEntry st.session eid2 with
      | none => simp only [on_recent_entry_item_changed, if_neg hg, hloc]
      | some t =>
        obtain ⟨ci, j, e⟩ := t
        simp only [on_recent_entry_item_changed, if_neg hg, hloc]
        split
        · rfl
        · exact applyEditAt_frame st.session ci j (pyStrip txt2)

/-! ## C9: category-name invariant -/

/-- Modifying one category preserves the invariant provided the
modification does at the touched category. -/
theorem catInvariant_modifyCat {s : Session} {i : Nat} {f : Category → Category}
    (hinv : catInvariant s)
    (hf : ∀ hlt : i < s.categories.length,
      (∀ e ∈ (s.categories.get ⟨i, hlt⟩).entries,
        e.category_name = (s.categories.get ⟨i, hlt⟩).name) →
      ∀ e ∈ (f (s.categories.get ⟨i, hlt⟩)).entries,
        e.category_name = (f (s.categories.get ⟨i, hlt⟩)).name) :
    catInvariant (modifyCat s i f) := by
  intro c hc e he
  rcases mem_modifyIdx hc with hmem | ⟨hlt, hceq⟩
  · exact hinv c hmem e he
  · subst hceq
    exact hf hlt (hinv _ (List.get_mem _ _ _)) e he

theorem setDnfFirst_name (l : List FinishEntry) (eid : String) :
    ∀ e ∈ setDnfFirst l eid, ∃ e0 ∈ l, e.category_name = e0.category_name := by
  induction l with
  | nil => intro e he; simp [setDnfFirst] at he
  | cons x xs ih =>
    intro e he
    by_cases hx : (x.entry_id == eid) = true
    · simp only [setDnfFirst, if_pos hx, List.mem_cons] at he
      rcases he with he | he
      · exact ⟨x, by simp, by rw [he]⟩
      · exact ⟨e, List.mem_cons_of_mem _ he, rfl⟩
    · simp only [setDnfFirst, if_neg hx, List.mem_cons] at he
      rcases he with he | he
      · exact ⟨x, by simp, by rw [he]⟩
      · obtain ⟨e0, he0, hn⟩ := ih e he
        exact ⟨e0, List.mem_cons_of_mem _ he0, hn⟩

/-- Moving an entry between ledgers preserves the invariant when the moved
entry carries the destination category's name. -/
theorem invariant_move (s : Session) (ci fi j : Nat) {c fc : Category}
    {e e2 e3 : FinishEntry}
    (hci : s.categories.get? ci = some c) (hfc : s.categories.get? fi = some fc)
    (hname2 : e2.category_name = e.category_name)
    (hname3 : e3.category_name = fc.name)
    (hename : e.category_name = c.name)
    (hinv : catInvariant s) :
    catInvariant (modifyCat
        (modifyCat s ci
          (fun cc => { cc with entries := (cc.entries.set j e2).erase e2 }))
        fi (fun cc => cc.add_entry e3)) := by
  obtain ⟨hcilen, hgc⟩ := List.get?_eq_some.mp hci
  have hinv1 : catInvariant (modifyCat s ci
      (fun cc => { cc with entries := (cc.entries.set j e2).erase e2 })) := by
    apply catInvariant_modifyCat hinv
    intro hlt hok e' he'
    have h1 := List.mem_of_mem_erase he'
    rcases List.mem_or_eq_of_mem_set h1 with h' | h'
    · exact hok e' h'
    · subst h'
      rw [hname2, hename]
      have hg : s.categories.get ⟨ci, hlt⟩ = c := by rw [← hgc]
      rw [hg]
  apply catInvariant_modifyCat hinv1
  intro hlt hok e' he'
  simp only [Category.add_entry, List.mem_append, List.mem_singleton] at he'
  rcases he' with he' | he'
  · rw [hok e' he']
    simp [Category.add_entry]
  · subst he'
    have hq := modifyIdx_get? s.categories ci fi
      (fun cc => { cc with entries := (cc.entries.set j e2).erase e2 })
    have hget : (modifyIdx s.categories ci
        (fun cc => { cc with entries := (cc.entries.set j e2).erase e2 })).get? fi =
        some ((modifyCat s ci
          (fun cc =>
            { cc with entries := (cc.entries.set j e2).erase e2 })).categories.get
          ⟨fi, hlt⟩) := List.get?_eq_get hlt
    rw [hget] at hq
    have hsname : ((modifyCat s ci
        (fun cc =>
          { cc with entries := (cc.entries.set j e2).erase e2 })).categories.get
        ⟨fi, hlt⟩).name = fc.name := by
      by_cases hfici : fi = ci
      · subst hfici
        rw [if_pos rfl, hci, Option.map_some'] at hq
        have hval := Option.some.inj hq
        have hfcc : fc = c := Option.some.inj (hfc.symm.trans hci)
        rw [show ((modifyCat s fi
            (fun cc =>
              { cc with entries := (cc.entries.set j e2).erase e2 })).categories.get
            ⟨fi, hlt⟩) = ({ c with entries := (c.entries.set j e2).erase e2 } :
            Category) from hval, hfcc]
      · rw [if_neg hfici, hfc] at hq
        rw [Option.some.inj hq]
    simp only [Category.add_entry]
    rw [hname3, hsname]

/-- Re-resolution (both edit paths' shared core) preserves the invariant. -/
theorem applyEditAt_invariant (s : Session) (ci j : Nat) (new_id : String)
    (hinv : catInvariant s) : catInvariant (s.applyEditAt ci j new_id) := by
  cases hscr : (s.categories.get? ci).bind (fun c => c.entries.get? j) with
  | none =>
    simp only [Session.applyEditAt, hscr]
    exact hinv
  | some e =>
    cases hci : s.categories.get? ci with
    | none => rw [hci] at hscr; simp at hscr
    | some c =>
      rw [hci] at hscr
      have hj : c.entries.get? j = some e := hscr
      have hec : e ∈ c.entries := List.get?_mem hj
      have hcmem : c ∈ s.categories := List.get?_mem hci
      have hename : e.category_name = c.name := hinv c hcmem e hec
      obtain ⟨hcilen, hgc⟩ := List.get?_eq_some.mp hci
      have hstay : ∀ e2 : FinishEntry, e2.category_name = e.category_name →
          catInvariant (modifyCat s ci
            (fun cc => { cc with entries := cc.entries.set j e2 })) := by
        intro e2 he2
        apply catInvariant_modifyCat hinv
        intro hlt hok e' he'
        rcases List.mem_or_eq_of_mem_set he' with h' | h'
        · exact hok e' h'
        · subst h'
          rw [he2, hename]
          have hg : s.categories.get ⟨ci, hlt⟩ = c := by rw [← hgc]
          rw [hg]
      cases hfind : s.categories.findIdx? (fun cc => cc.has_participant new_id) with
      | none =>
        simp only [Session.applyEditAt, hci, Option.some_bind, hj, hfind]
        exact hstay _ rfl
      | some fi =>
        cases hfc : s.categories.get? fi with
        | none =>
          simp only [Session.applyEditAt, hci, Option.some_bind, hj, hfind, hfc]
          exact hinv
        | some fc =>
          cases hp : fc.get_participant_data new_id with
          | none =>
            simp only [Session.applyEditAt, hci, Option.some_bind, hj, hfind, hfc, hp]
            exact hstay _ rfl
          | some p =>
            simp only [Session.applyEditAt, hci, Option.some_bind, hj, hfind, hfc, hp]
            split
            · exact invariant_move s ci fi j hci hfc rfl rfl hename hinv
            · exact hstay _ rfl

/-- C9: every operation — submit, dialog edit, table edit, delete, undo,
DNF-marking — preserves the invariant that each entry's `category_name`
equals the name of the category whose ledger holds it; an edit that
re-resolves to a different category removes the entry from the old ledger,
rewrites `category_name` to the new category's name, and appends it there
(the move branch of `applyEditAt`, covered by the edit conjuncts). -/
theorem C9_invariant_all_ops (st : AppState) (hinv : catInvariant st.session) :
    (∀ raw nid tF tE, catInvariant (process_entry st raw nid tF tE).session) ∧
    (∀ eid cname txt, catInvariant (edit_entry st eid cname txt).session) ∧
    (∀ eid txt, catInvariant (on_recent_entry_item_changed st eid txt).session) ∧
    (∀ eid cname confirm,
      catInvariant (delete_entry st eid cname confirm).session) ∧
    catInvariant (undo_last_entry st).session ∧
    (∀ ci eid, catInvariant (mark_dnf st ci eid).session) := by
  refine ⟨?_, ?_, ?_, ?_, ?_, ?_⟩
  · intro raw nid tF tE
    by_cases htrim : pyStrip raw = ""
    · simp only [process_entry, if_pos htrim]
      exact hinv
    · by_cases hcats : st.session.categories = []
      · simp only [process_entry, if_neg htrim, hcats, find_participant_category_idx,
          List.findIdx?_nil, List.isEmpty_nil, if_true]
        exact hinv
      · obtain ⟨tgt, entry, htgt, hid, hname, hshape⟩ :=
          process_entry_shape st raw nid tF tE htrim hcats
        rw [hshape]
        apply catInvariant_modifyCat hinv
        intro hlt hok e he
        simp only [Category.add_entry, List.mem_append, List.mem_singleton] at he
        rcases he with he | he
        · rw [hok e he]
          simp [Category.add_entry]
        · subst he
          simp only [Category.add_entry]
          exact hname
  · intro eid cname txt
    cases hgc : st.session.get_category_idx cname with
    | none => simp only [edit_entry, hgc]; exact hinv
    | some ci =>
      cases hgi : st.session.categories.get? ci with
      | none => simp only [edit_entry, hgc, hgi]; exact hinv
      | some c =>
        cases hfi : c.entries.findIdx? (fun e => e.entry_id == eid) with
        | none => simp only [edit_entry, hgc, hgi, hfi]; exact hinv
        | some j =>
          simp only [edit_entry, hgc, hgi, hfi]
          split
          · exact hinv
          · exact applyEditAt_invariant st.session ci j (pyStrip txt) hinv
  · intro eid txt
    by_cases hg : pyStrip txt = "" ∨ eid = ""
    · simp only [on_recent_entry_item_changed, if_pos hg]
      exact hinv
    · cases hloc : locateEntry st.session eid with
      | none =>
        simp only [on_recent_entry_item_changed, if_neg hg, hloc]
        exact hinv
      | some t =>
        obtain ⟨ci, j, e⟩ := t
        simp only [on_recent_entry_item_changed, if_neg hg, hloc]
        split
        · exact hinv
        · exact applyEditAt_invariant st.session ci j (pyStrip txt) hinv
  · intro eid cname confirm
    cases hgc : st.session.get_category_idx cname with
    | none => simp only [delete_entry, hgc]; exact hinv
    | some ci =>
      cases hgi : st.session.categories.get? ci with
      | none => simp only [delete_entry, hgc, hgi]; exact hinv
      | some c =>
        simp only [delete_entry, hgc, hgi]
        split
        · split
          · apply catInvariant_modifyCat hinv
            intro hlt hok e he
            have := hok e (List.mem_of_mem_filter he)
            exact this
          · exact hinv
        · exact hinv
  · cases hlast : st.last_entries.getLast? with
    | none => simp only [undo_last_entry, hlast]; exact hinv
    | some pr =>
      obtain ⟨eid, ci⟩ := pr
      simp only [undo_last_entry, hlast]
      apply catInvariant_modifyCat hinv
      intro hlt hok e he
      exact hok e (List.mem_of_mem_filter he)
  · intro ci eid
    apply catInvariant_modifyCat hinv
    intro hlt hok e he
    obtain ⟨e0, he0, hn⟩ := setDnfFirst_name _ _ e he
    rw [hn]
    exact hok e0 he0

/-- C9 witness: the invariant holds of the sample session and is kept by a
submission and by an undo. -/
theorem C9_invariant_all_ops_witness :
    catInvariant (process_entry stAB "9" "e1" 1 2).session ∧
    catInvariant (undo_last_entry stAB).session := by
  have h := C9_invariant_all_ops stAB (by decide)
  exact ⟨h.1 "9" "e1" 1 2, h.2.2.2.2.1⟩

/-! ## C6: combined-view ordering -/

/-- C6 counterexample: with one category holding a DNF entry at 10s and a
finisher at 20s, the combined sheet puts the DNF row first — its time
string parses like any other, so the `float('inf')` sentinel never applies
to DNF rows and they are not sorted after the non-DNF rows. -/
theorem C6_dnf_not_sorted_last :
    (create_combined_rows [catC]).map (fun r => r.rank) =
      [RankLabel.dnf, RankLabel.num 1] := by decide

/-- C6 (amended): the combined view is globally ordered ascending by the
parsed `HH:MM:SS` sort key — the whole-second truncation of each entry's
elapsed time — with DNF rows ordered by the same key as ranked rows (the
infinite sentinel applies only to unparseable time strings, which the
formatter never produces for nonnegative elapsed times). -/
theorem C6_combined_rows_sorted (cats : List Category)
    (h : ∀ c ∈ cats, ∀ e ∈ c.entries, 0 ≤ e.elapsed_time) :
    (create_combined_rows cats).Pairwise
      (fun a b => keyLE (combKey a) (combKey b) = true) ∧
    ∀ r ∈ create_combined_rows cats,
      ∃ c ∈ cats, ∃ e ∈ c.entries,
        combKey r = some (e.elapsed_time / 1000000) := by
  have keyLE_total : ∀ x y : Option Int, keyLE x y = true ∨ keyLE y x = true := by
    intro x y
    cases x <;> cases y <;> simp [keyLE] <;> omega
  have keyLE_trans : ∀ x y z : Option Int,
      keyLE x y = true → keyLE y z = true → keyLE x z = true := by
    intro x y z h1 h2
    cases x <;> cases y <;> cases z <;> simp_all [keyLE] <;> omega
  haveI htot : IsTotal CombRow (fun a b => keyLE (combKey a) (combKey b) = true) :=
    ⟨fun a b => keyLE_total (combKey a) (combKey b)⟩
  haveI htrans : IsTrans CombRow (fun a b => keyLE (combKey a) (combKey b) = true) :=
    ⟨fun a b c hab hbc => keyLE_trans _ _ _ hab hbc⟩
  constructor
  · exact List.sorted_insertionSort
      (fun a b => keyLE (combKey a) (combKey b) = true) _
  · intro r hr
    rw [create_combined_rows, List.mem_insertionSort] at hr
    obtain ⟨lr, hlr, hrin⟩ := List.mem_flatten.mp hr
    obtain ⟨c, hc, hmap⟩ := List.mem_map.mp hlr
    rw [← hmap] at hrin
    obtain ⟨e, he, hrow⟩ := List.mem_map.mp hrin
    refine ⟨c, hc, e, he, ?_⟩
    rw [← hrow]
    exact parse_time_format_elapsed e (h c hc e he)

/-- C6 witness: the amended ordering at the sample category. -/
theorem C6_combined_rows_sorted_witness :
    (create_combined_rows [catC]).Pairwise
      (fun a b => keyLE (combKey a) (combKey b) = true) ∧
    ∀ r ∈ create_combined_rows [catC],
      ∃ c ∈ [catC], ∃ e ∈ c.entries,
        combKey r = some (e.elapsed_time / 1000000) :=
  C6_combined_rows_sorted [catC] (by decide)

end MTBTiming
